import Mathlib

/-!
# Dilay: winged-edge faces and the carve action

A shallow embedding of `src/winged-face.cpp` and `lib/src/action/carve.cpp`.

* `unsigned int` values are natural numbers reduced modulo `2 ^ 32` wherever the
  source does arithmetic on them.
* `float` values are rationals, and `glm::sqrt` and `glm::normalize` are
  parameters. Arithmetic on positions and normals is exact. The bound
  `maxLengthSqr` of the subdivide step, which decides which edges are split, is
  computed as the source computes it: every operation is rounded to single
  precision by `roundFloat`.
* `assert` is taken as compiled in: a failed assertion is a `Fault`.
* Code that the two source files call but do not contain (vertex and edge
  accessors, the mesh, the affected-faces set, the action container) is either a
  parameter or a definition marked `Modelled from the spec`.
-/

namespace Dilay

/-! ## Machine integers and vectors -/

/-- The modulus of `unsigned int` arithmetic. -/
def UINT_MOD : Nat := 2 ^ 32

/-- The value of `std::numeric_limits <unsigned int>::max ()`. -/
def UINT_MAX : Nat := 2 ^ 32 - 1

/-- A `glm::vec3` over exact rationals. -/
structure Vec3 where
  x : ℚ
  y : ℚ
  z : ℚ
deriving DecidableEq

namespace Vec3

/-- Componentwise `operator+`. -/
def add (a b : Vec3) : Vec3 := ⟨a.x + b.x, a.y + b.y, a.z + b.z⟩

/-- Componentwise `operator-`. -/
def sub (a b : Vec3) : Vec3 := ⟨a.x - b.x, a.y - b.y, a.z - b.z⟩

/-- Scaling `v * s`. -/
def scale (a : Vec3) (s : ℚ) : Vec3 := ⟨a.x * s, a.y * s, a.z * s⟩

/-- The product `glm::dot`. -/
def dot (a b : Vec3) : ℚ := a.x * b.x + a.y * b.y + a.z * b.z

/-- The product `glm::cross`. -/
def cross (a b : Vec3) : Vec3 :=
  ⟨a.y * b.z - b.y * a.z, a.z * b.x - b.z * a.x, a.x * b.y - b.x * a.y⟩

/-- The unary `operator-`. -/
def neg (a : Vec3) : Vec3 := ⟨-a.x, -a.y, -a.z⟩

/-- The quotient `v / s` by a scalar. -/
def divScalar (a : Vec3) (s : ℚ) : Vec3 := ⟨a.x / s, a.y / s, a.z / s⟩

/-- The zero vector. -/
def zero : Vec3 := ⟨0, 0, 0⟩

end Vec3

/-! ## Single precision -/

/-- The integer nearest to `q`; when `q` lies half-way between two integers, the
even one of the two. -/
def roundHalfEven (q : ℚ) : ℤ :=
  if q - ⌊q⌋ < 1 / 2 then ⌊q⌋
  else if 1 / 2 < q - ⌊q⌋ then ⌊q⌋ + 1
  else if ⌊q⌋ % 2 = 0 then ⌊q⌋ else ⌊q⌋ + 1

/-- The exponent of the last place of a `float` near `q`: the values of magnitude
in `[2 ^ k, 2 ^ (k + 1))` are the multiples of `2 ^ (k - 23)` there, and those of
magnitude below `2 ^ (-126)` are the multiples of `2 ^ (-149)`. -/
def floatUlpExponent (q : ℚ) : ℤ := max (Int.log 2 |q| - 23) (-149)

/-- The `float` that an operation with the exact result `q` yields: the nearest
multiple of the last place, the even one when two are equally near (IEEE 754
binary32, round to nearest even). Results of magnitude `2 ^ 128` and more, for
which the operation yields an infinity, are not modelled. -/
def roundFloat (q : ℚ) : ℚ :=
  roundHalfEven (q / 2 ^ floatUlpExponent q) * 2 ^ floatUlpExponent q

/-! ## Faults -/

/-- The assertions of `winged-face.cpp`. -/
inductive Fault
  /-- The check `assert (this->isTriangle ())`. -/
  | isTriangle
  /-- The check `assert (false)` that ends `WingedFace::adjacent`. -/
  | noAdjacentEdge
deriving DecidableEq

/-- The result of a mutating member function: the state it leaves behind and the
assertion it stopped on, if any. -/
structure Outcome (σ : Type) where
  state : σ
  fault : Option Fault

/-! ## Vertices, edges, faces -/

/-- Modelled from the spec: `winged-vertex.hpp` is not among the sources. A vertex
is its index into the mesh buffers and the value `level ()` returns. -/
structure WingedVertex where
  index : Nat
  level : Nat
deriving DecidableEq

/-- Modelled from the spec: `winged-edge.hpp` is not among the sources. An edge as
one face sees it: `vertex1`, `vertex2` are `vertex1Ref ()`, `vertex2Ref ()`,
`isTEdge` is `isTEdge ()`, and `isLeftFace` tells whether the face at hand is the
left face of the edge, which decides `firstVertexRef (face)` and
`secondVertexRef (face)`. -/
structure WingedEdge where
  id : Nat
  vertex1 : WingedVertex
  vertex2 : WingedVertex
  isTEdge : Bool
  isLeftFace : Bool
deriving DecidableEq

namespace WingedEdge

/-- Modelled from the spec: the accessor `firstVertexRef (face)` of `WingedEdge`,
which is not among the sources: the end point the face meets first. -/
def firstVertexRef (e : WingedEdge) : WingedVertex :=
  if e.isLeftFace then e.vertex1 else e.vertex2

/-- Modelled from the spec: the accessor `secondVertexRef (face)` of `WingedEdge`,
which is not among the sources: the other end point. -/
def secondVertexRef (e : WingedEdge) : WingedVertex :=
  if e.isLeftFace then e.vertex2 else e.vertex1

/-- Modelled from the spec: the test `isAdjacent (vertex)` of `WingedEdge`, which is
not among the sources: the vertex is an end point of the edge. -/
def isAdjacent (e : WingedEdge) (v : WingedVertex) : Bool :=
  decide (e.vertex1.index = v.index) || decide (e.vertex2.index = v.index)

end WingedEdge

/-- Modelled from the spec: `adjacent-iterator.hpp` and `winged-edge.hpp` are not
among the sources. A face is the fields `_firstIndexNumber` and `_edge` of
`WingedFace` and the successor chain `rest` that leads from `_edge` around the
face back to it. -/
structure WingedFace where
  firstIndexNumber : Nat
  edge : WingedEdge
  rest : List WingedEdge
deriving DecidableEq

/-- The operations of `WingedVertex` on a mesh of type `M`, which the sources call
but do not contain. -/
structure VertexOps (M : Type) where
  /-- The call `v.writeIndex (mesh, indexNumber)`. -/
  writeIndex : WingedVertex → M → Nat → M
  /-- The call `v.writeNormal (mesh)`. -/
  writeNormal : WingedVertex → M → M
  /-- The call `v.vertex (mesh)`: the position of the vertex. -/
  vertex : WingedVertex → M → Vec3

/-- The class `Triangle`: three corner positions. -/
structure Triangle where
  a : Vec3
  b : Vec3
  c : Vec3
deriving DecidableEq

namespace WingedFace

variable {M : Type}

/-- Modelled from the spec: the sequence `ADJACENT_EDGE_ITERATOR (it, face)` runs
through (`adjacent-iterator.hpp` is not among the sources): the reference edge,
then its successors around the face. -/
def adjacentEdges (f : WingedFace) : List WingedEdge := f.edge :: f.rest

/-- Modelled from the spec: the sequence `ADJACENT_VERTEX_ITERATOR (it, face)` runs
through (`adjacent-iterator.hpp` is not among the sources): the first vertex of
every boundary edge. -/
def adjacentVertices (f : WingedFace) : List WingedVertex :=
  f.adjacentEdges.map WingedEdge.firstVertexRef

/-- Modelled from the spec: the member `successor (face)` of the reference edge
(`winged-edge.hpp` is not among the sources): the next boundary edge, which is
the reference edge itself when the boundary has one edge. -/
def edgeSuccessor (f : WingedFace) : WingedEdge :=
  match f.rest with
  | [] => f.edge
  | e :: _ => e

/-- Modelled from the spec: the member `_edge->vertex (face, i)`
(`winged-edge.hpp` is not among the sources): the first vertex of the boundary
edge reached after `i` successor steps. -/
def edgeVertex (f : WingedFace) (i : Nat) : WingedVertex :=
  (f.adjacentEdges.getD (i % f.adjacentEdges.length) f.edge).firstVertexRef

/-- The member `numEdges`: counts the boundary edges in an `unsigned int`. -/
def numEdges (f : WingedFace) : Nat :=
  f.adjacentEdges.foldl (fun i _ => (i + 1) % UINT_MOD) 0

/-- The member `isTriangle`. -/
def isTriangle (f : WingedFace) : Bool := f.numEdges == 3

/-- The member `firstVertex`. -/
def firstVertex (f : WingedFace) : WingedVertex := f.edge.firstVertexRef

/-- The member `secondVertex`. -/
def secondVertex (f : WingedFace) : WingedVertex := f.edge.secondVertexRef

/-- The member `thirdVertex`. -/
def thirdVertex (f : WingedFace) : WingedVertex := f.edgeSuccessor.secondVertexRef

/-- The loop of `writeIndices`: every vertex of the traversal gets the running
index number, which is then incremented. -/
def writeIndicesLoop (ops : VertexOps M) : List WingedVertex → M → Nat → M
  | [], mesh, _ => mesh
  | v :: vs, mesh, indexNumber =>
      writeIndicesLoop ops vs (ops.writeIndex v mesh indexNumber) ((indexNumber + 1) % UINT_MOD)

/-- The member `writeIndices (mesh, newFIN)`; `newFIN` is `none` for a null
pointer. -/
def writeIndices (ops : VertexOps M) (f : WingedFace) (mesh : M) (newFIN : Option Nat) :
    Outcome (WingedFace × M) :=
  if f.isTriangle then
    let f1 : WingedFace :=
      match newFIN with
      | some n => { f with firstIndexNumber := n }
      | none => f
    ⟨(f1, writeIndicesLoop ops f1.adjacentVertices mesh f1.firstIndexNumber), none⟩
  else
    ⟨(f, mesh), some Fault.isTriangle⟩

/-- The member `writeNormals (mesh)`. -/
def writeNormals (ops : VertexOps M) (f : WingedFace) (mesh : M) : M :=
  f.adjacentVertices.foldl (fun m v => ops.writeNormal v m) mesh

/-- The member `write (mesh, newFIN)`: `writeIndices`, then `writeNormals`. -/
def write (ops : VertexOps M) (f : WingedFace) (mesh : M) (newFIN : Option Nat) :
    Outcome (WingedFace × M) :=
  let r := writeIndices ops f mesh newFIN
  match r.fault with
  | some e => ⟨r.state, some e⟩
  | none => ⟨(r.state.1, writeNormals ops r.state.1 r.state.2), none⟩

/-- The member `triangle (mesh)`. -/
def triangle (ops : VertexOps M) (f : WingedFace) (mesh : M) : Except Fault Triangle :=
  if f.isTriangle then
    .ok ⟨ops.vertex f.firstVertex mesh, ops.vertex f.secondVertex mesh,
         ops.vertex f.thirdVertex mesh⟩
  else
    .error Fault.isTriangle

/-- The function `glm::length`, over the square root `sqrt`. -/
def glmLength (sqrt : ℚ → ℚ) (v : Vec3) : ℚ := sqrt (Vec3.dot v v)

/-- The member `incircleRadius (mesh)`, over the square root `sqrt`. -/
def incircleRadius (ops : VertexOps M) (sqrt : ℚ → ℚ) (f : WingedFace) (mesh : M) :
    Except Fault ℚ :=
  if f.isTriangle then
    let v1 := ops.vertex f.firstVertex mesh
    let v2 := ops.vertex f.secondVertex mesh
    let v3 := ops.vertex f.thirdVertex mesh
    let a := glmLength sqrt (Vec3.sub v1 v2)
    let b := glmLength sqrt (Vec3.sub v2 v3)
    let c := glmLength sqrt (Vec3.sub v3 v1)
    let s := (a + b + c) * (1 / 2)
    .ok (sqrt ((s - a) * (s - b) * (s - c) / s))
  else
    .error Fault.isTriangle

/-- The member `normal (mesh)`, over the function `normalize` that stands for
`glm::normalize`. The source has no assertion here. -/
def normal (ops : VertexOps M) (normalize : Vec3 → Vec3) (f : WingedFace) (mesh : M) :
    Except Fault Vec3 :=
  let v1 := ops.vertex (f.edgeVertex 0) mesh
  let v2 := ops.vertex (f.edgeVertex 1) mesh
  let v3 := ops.vertex (f.edgeVertex 2) mesh
  .ok (normalize (Vec3.cross (Vec3.sub v2 v1) (Vec3.sub v3 v2)))

/-! ### The level of a face -/

/-- What the edge loop of `levelMin` ends with. -/
inductive LevelScan
  /-- The loop met a T-edge and `levelMin` returned this value at once. -/
  | tEdge (r : Nat)
  /-- The loop ran through; this is the final value of `l`. -/
  | scanned (l : Nat)
deriving DecidableEq

/-- The edge loop of `levelMin (min)`, started with the running minimum `l`. -/
def levelMinEdges (min : Nat) : List WingedEdge → Nat → LevelScan
  | [], l => LevelScan.scanned l
  | e :: es, l =>
      if e.isTEdge then
        LevelScan.tEdge ((e.vertex1.level + UINT_MOD - 1) % UINT_MOD)
      else
        let l1 := if min ≤ e.vertex1.level then Nat.min l e.vertex1.level else l
        let l2 := if min ≤ e.vertex2.level then Nat.min l1 e.vertex2.level else l1
        levelMinEdges min es l2

/-- The vertex loop of `levelMin`: counts, in an `unsigned int`, the vertices of
the traversal whose level is `l`. -/
def levelCount (l : Nat) : List WingedVertex → Nat → Nat
  | [], count => count
  | v :: vs, count =>
      if v.level = l then levelCount l vs ((count + 1) % UINT_MOD) else levelCount l vs count

/-- The recursive lambda `levelMin` of `level`; `fuel` bounds the number of calls,
and `none` means the bound was reached. -/
def levelMin (f : WingedFace) : Nat → Nat → Option Nat
  | 0, _ => none
  | fuel + 1, min =>
      match levelMinEdges min f.adjacentEdges UINT_MAX with
      | LevelScan.tEdge r => some r
      | LevelScan.scanned l =>
          if levelCount l f.adjacentVertices 0 = 1 then
            levelMin f fuel ((l + 1) % UINT_MOD)
          else
            some l

/-- The member `level ()`: `levelMin (0)`. -/
def level (f : WingedFace) (fuel : Nat) : Option Nat := levelMin f fuel 0

/-- The search threshold of the call of `levelMin` that returns, when the search
starts at threshold `min`: the recursion of `levelMin`, reporting its argument
instead of its result. -/
def levelMinThreshold (f : WingedFace) : Nat → Nat → Option Nat
  | 0, _ => none
  | fuel + 1, min =>
      match levelMinEdges min f.adjacentEdges UINT_MAX with
      | LevelScan.tEdge _ => some min
      | LevelScan.scanned l =>
          if levelCount l f.adjacentVertices 0 = 1 then
            levelMinThreshold f fuel ((l + 1) % UINT_MOD)
          else
            some min

/-- The first T-edge of the boundary traversal, if there is one. -/
def firstTEdge (f : WingedFace) : Option WingedEdge :=
  f.adjacentEdges.find? (fun e => e.isTEdge)

/-- The thresholds of the calls of `levelMin` that a search started at threshold
`min` makes, in the order of the calls; `fuel` bounds the number of calls. -/
def levelMinCalls (f : WingedFace) : Nat → Nat → List Nat
  | 0, _ => []
  | fuel + 1, min =>
      min :: (match levelMinEdges min f.adjacentEdges UINT_MAX with
        | LevelScan.tEdge _ => []
        | LevelScan.scanned l =>
            if levelCount l f.adjacentVertices 0 = 1 then
              levelMinCalls f fuel ((l + 1) % UINT_MOD)
            else
              [])

/-! ### Adjacent and longest edge -/

/-- The loop of `adjacent (vertex)` and the `assert (false)` after it. -/
def adjacentLoop (v : WingedVertex) : List WingedEdge → Except Fault WingedEdge
  | [] => .error Fault.noAdjacentEdge
  | e :: es => if e.isAdjacent v then .ok e else adjacentLoop v es

/-- The member `adjacent (vertex)`. -/
def adjacent (f : WingedFace) (v : WingedVertex) : Except Fault WingedEdge :=
  adjacentLoop v f.adjacentEdges

/-- The loop of `longestEdge`, threading `longest` and `maxLength`; `length` is
`edge.length (mesh)`, which the sources call but do not contain. -/
def longestEdgeLoop (length : WingedEdge → M → ℚ) (mesh : M) :
    List WingedEdge → WingedEdge → ℚ → WingedEdge
  | [], longest, _ => longest
  | e :: es, longest, maxLength =>
      if length e mesh > maxLength then
        longestEdgeLoop length mesh es e (length e mesh)
      else
        longestEdgeLoop length mesh es longest maxLength

/-- The member `longestEdge (mesh)`: starts from the reference edge and the
length 0. -/
def longestEdge (length : WingedEdge → M → ℚ) (f : WingedFace) (mesh : M) : WingedEdge :=
  longestEdgeLoop length mesh f.adjacentEdges f.edge 0

end WingedFace

/-! ## The carve action -/

/-- Modelled from the spec: `affected-faces.hpp` is not among the sources. A set
of faces (by identity) in two parts: the committed, queryable faces, and the
pending additions. -/
structure AffectedFaces where
  faces : List Nat
  uncommitted : List Nat
deriving DecidableEq

namespace AffectedFaces

/-- Modelled from the spec: a freshly constructed `AffectedFaces`. -/
def empty : AffectedFaces := ⟨[], []⟩

/-- Modelled from the spec: the call `insert (face)`, a pending addition. -/
def insert (d : AffectedFaces) (f : Nat) : AffectedFaces :=
  { d with uncommitted := d.uncommitted ++ [f] }

/-- Modelled from the spec: the call `insert (other)`, the union with another set,
as pending additions. -/
def insertAll (d other : AffectedFaces) : AffectedFaces :=
  { d with uncommitted := d.uncommitted ++ (other.faces ++ other.uncommitted) }

/-- Modelled from the spec: the call `commit ()`, by which the pending additions
become queryable. -/
def commit (d : AffectedFaces) : AffectedFaces :=
  ⟨d.faces ++ d.uncommitted.filter (fun f => !d.faces.contains f), []⟩

/-- Modelled from the spec: the call `reset ()`, which empties the set. -/
def reset (_d : AffectedFaces) : AffectedFaces := empty

/-- A face is in the set, committed or pending. -/
def Mem (f : Nat) (d : AffectedFaces) : Prop := f ∈ d.faces ∨ f ∈ d.uncommitted

end AffectedFaces

/-- The class `PrimSphere`. -/
structure PrimSphere where
  center : Vec3
  radius : ℚ
deriving DecidableEq

/-- The class `CarveBrush`, without its mesh, which is the `mesh` of the state:
`position ()`, `width ()`, `detail ()` and the falloff `y`. -/
structure CarveBrush where
  position : Vec3
  width : ℚ
  detail : ℚ
  y : ℚ → ℚ

/-- A record of the action sequence `actions`, named after the member function
that configures it after `actions.add`. Faces, edges and vertices are referred
to by identity. -/
inductive Record
  /-- The record `add <ActionSubdivideEdge> ().subdivideEdge (mesh, e, newAF)`. -/
  | subdivideEdge (e : Nat)
  /-- The record `add <ActionSubdivideEdge> ().relaxEdge (mesh, e, domain)`. -/
  | relaxEdge (e : Nat)
  /-- The record `add <ActionSmooth> ().run (mesh, vertices, domain)`. -/
  | smooth (vs : List Nat)
  /-- The record `add <PAModifyWVertex> ().writeInterpolatedNormal (mesh, v)`. -/
  | writeInterpolatedNormal (v : Nat)
  /-- The record `add <PAModifyWVertex> ().move (mesh, v, newPos)`. -/
  | move (v : Nat) (pos : Vec3)
deriving DecidableEq

/-- A call that `ActionCarve` makes on the mesh, in the order made. -/
inductive Call
  /-- The query `mesh.intersects (sphere, domain)`. -/
  | intersects
  /-- The run of a subdivide-edge record. -/
  | subdivideEdge (e : Nat)
  /-- The direct call `vertex.writeNormal (mesh, normal)`. -/
  | writeNormal (v : Nat) (n : Vec3)
  /-- The run of a relax-edge record. -/
  | relaxEdge (e : Nat)
  /-- The run of a smooth record. -/
  | smooth (vs : List Nat)
  /-- The run of a write-normal record. -/
  | writeInterpolatedNormal (v : Nat)
  /-- The run of a move-vertex record. -/
  | move (v : Nat) (pos : Vec3)
  /-- The call `self->realignFace (mesh, face)`. -/
  | realignFace (f : Nat)
  /-- The call `self->bufferData (mesh)`. -/
  | bufferData
deriving DecidableEq

/-- The call on the mesh that running a record makes. -/
def Record.call : Record → Call
  | Record.subdivideEdge e => Call.subdivideEdge e
  | Record.relaxEdge e => Call.relaxEdge e
  | Record.smooth vs => Call.smooth vs
  | Record.writeInterpolatedNormal v => Call.writeInterpolatedNormal v
  | Record.move v pos => Call.move v pos

/-- A call that writes to the mesh without a record: `vertex.writeNormal`. -/
def Call.isDirectWrite : Call → Bool
  | Call.writeNormal _ _ => true
  | _ => false

/-- The domain `d2` comes from `d1` by calls of `insert (face)` only. -/
def AffectedFaces.OnlyInserts (d1 d2 : AffectedFaces) : Prop :=
  ∃ fs : List Nat, d2 = fs.foldl AffectedFaces.insert d1

/-- The domain `d2` holds every face of `d1`: the committed faces of `d1` are
committed in `d2`, and the faces in `d1` (committed or pending) are in `d2`. -/
def AffectedFaces.Le (d1 d2 : AffectedFaces) : Prop :=
  (∀ f ∈ d1.faces, f ∈ d2.faces) ∧ (∀ f, AffectedFaces.Mem f d1 → AffectedFaces.Mem f d2)

/-- The collaborators of `ActionCarve` on a mesh of type `M`, which `carve.cpp`
calls but does not contain. -/
structure CarveOps (M : Type) where
  /-- The query `mesh.intersects (sphere, domain)`: the domain it leaves. -/
  intersects : M → PrimSphere → AffectedFaces → AffectedFaces
  /-- The test `IntersectionUtil::intersects (sphere, mesh, face)`. -/
  intersectsFace : PrimSphere → M → Nat → Bool
  /-- The call `ActionSubdivideEdge::extendDomain (domain)`. -/
  extendDomain : M → AffectedFaces → AffectedFaces
  /-- The view `domain.edges ()`. -/
  edges : M → AffectedFaces → List Nat
  /-- The view `domain.toVertexSet ()`. -/
  toVertexSet : M → AffectedFaces → List Nat
  /-- The value `edge.lengthSqr (mesh)`. -/
  lengthSqr : M → Nat → ℚ
  /-- The vertex `edge.vertex1Ref ()`. -/
  vertex1 : M → Nat → Nat
  /-- The value `vertex.interpolatedNormal (mesh)`. -/
  interpolatedNormal : M → Nat → Vec3
  /-- The value `vertex.vector (mesh)`. -/
  vector : M → Nat → Vec3
  /-- The call `vertex.writeNormal (mesh, normal)`. -/
  writeNormal : M → Nat → Vec3 → M
  /-- The run of `ActionSubdivideEdge::subdivideEdge (mesh, edge, affected)`. -/
  subdivideEdge : M → Nat → AffectedFaces → M × AffectedFaces
  /-- The run of `ActionSubdivideEdge::relaxEdge (mesh, edge, affected)`. -/
  relaxEdge : M → Nat → AffectedFaces → M × AffectedFaces
  /-- The run of `ActionSmooth::run (mesh, vertices, affected)`. -/
  smooth : M → List Nat → AffectedFaces → M × AffectedFaces
  /-- The run of `PAModifyWVertex::writeInterpolatedNormal (mesh, vertex)`. -/
  writeInterpolatedNormal : M → Nat → M
  /-- The run of `PAModifyWVertex::move (mesh, vertex, newPos)`. -/
  move : M → Nat → Vec3 → M
  /-- The call `self->realignFace (mesh, face)`. -/
  realignFace : M → Nat → M
  /-- The call `self->bufferData (mesh)`. -/
  bufferData : M → M

/-- The state `ActionCarve::Impl` works on: the mesh of the brush, the action
sequence `actions` in append order, and the calls made on the mesh so far. -/
structure CarveState (M : Type) where
  mesh : M
  actions : List Record
  calls : List Call

namespace ActionCarve

variable {M : Type}

/-- The member `carveVertex (brush, normal, pos)`; `distance` stands for
`glm::distance`. -/
def carveVertex (distance : Vec3 → Vec3 → ℚ) (brush : CarveBrush) (normal pos : Vec3) : Vec3 :=
  let delta := brush.y (distance pos brush.position)
  Vec3.add pos (Vec3.scale normal delta)

/-- The average normal of `carveFaces`: the sum of the interpolated normals of
the vertices, divided by their number. -/
def averageNormal (ops : CarveOps M) (mesh : M) (vertices : List Nat) : Vec3 :=
  Vec3.divScalar
    (vertices.foldl (fun avgNormal v => Vec3.add avgNormal (ops.interpolatedNormal mesh v))
      Vec3.zero)
    vertices.length

/-- The second loop of `carveFaces`: one move-vertex record for every vertex. -/
def carveLoop (ops : CarveOps M) (distance : Vec3 → Vec3 → ℚ) (brush : CarveBrush)
    (avgNormal : Vec3) : List Nat → CarveState M → CarveState M
  | [], s => s
  | v :: vs, s =>
      carveLoop ops distance brush avgNormal vs
        ⟨ops.move s.mesh v (carveVertex distance brush avgNormal (ops.vector s.mesh v)),
         s.actions ++ [Record.move v (carveVertex distance brush avgNormal (ops.vector s.mesh v))],
         s.calls ++ [Call.move v (carveVertex distance brush avgNormal (ops.vector s.mesh v))]⟩

/-- The member `carveFaces (brush, domain)`. -/
def carveFaces (ops : CarveOps M) (distance : Vec3 → Vec3 → ℚ) (brush : CarveBrush)
    (domain : AffectedFaces) (s : CarveState M) : CarveState M :=
  let vertices := ops.toVertexSet s.mesh domain
  carveLoop ops distance brush (averageNormal ops s.mesh vertices) vertices s

/-- The value `maxLengthSqr` of `subdivideEdges`: the `float` quotient
`4.0f / 3.0f`, its `float` product `maxLength` with `brush.detail ()`, and the
`float` product `maxLength * maxLength`. -/
def maxLengthSqr (brush : CarveBrush) : ℚ :=
  let maxLength := roundFloat (roundFloat (4 / 3) * brush.detail)
  roundFloat (maxLength * maxLength)

/-- The lambda `thisIterationDomain`: the new value of `thisIteration`. -/
def thisIterationDomain (ops : CarveOps M) (sphere : PrimSphere) (mesh : M)
    (domain thisIteration : AffectedFaces) : AffectedFaces :=
  let t0 := thisIteration.reset
  let t1 := domain.faces.foldl
    (fun t f => if ops.intersectsFace sphere mesh f then t.insert f else t) t0
  ops.extendDomain mesh t1

/-- The lambda `isSubdividable`. -/
def isSubdividable (ops : CarveOps M) (mesh : M) (maxLengthSqr : ℚ) (e : Nat) : Bool :=
  decide (ops.lengthSqr mesh e > maxLengthSqr)

/-- The loop of the lambda `subdivideEdges`, threading the state and `newAF`. -/
def subdivideLoop (ops : CarveOps M) (maxLengthSqr : ℚ) :
    List Nat → CarveState M → AffectedFaces → CarveState M × AffectedFaces
  | [], s, newAF => (s, newAF)
  | e :: es, s, newAF =>
      if isSubdividable ops s.mesh maxLengthSqr e then
        let r := ops.subdivideEdge s.mesh e newAF
        let v := ops.vertex1 r.1 e
        let n := ops.interpolatedNormal r.1 v
        subdivideLoop ops maxLengthSqr es
          ⟨ops.writeNormal r.1 v n, s.actions ++ [Record.subdivideEdge e],
           s.calls ++ [Call.subdivideEdge e, Call.writeNormal v n]⟩ r.2
      else
        subdivideLoop ops maxLengthSqr es s newAF

/-- The lambda `subdivideEdges`: the state, `domain` and `thisIteration` after it. -/
def subdivideStep (ops : CarveOps M) (maxLengthSqr : ℚ) (s : CarveState M)
    (domain thisIteration : AffectedFaces) : CarveState M × AffectedFaces × AffectedFaces :=
  let r := subdivideLoop ops maxLengthSqr (ops.edges s.mesh thisIteration) s AffectedFaces.empty
  (r.1, (domain.insertAll r.2).commit, (thisIteration.insertAll r.2).commit)

/-- The loop of the lambda `relaxEdges`, threading the state and `domain`. -/
def relaxLoop (ops : CarveOps M) :
    List Nat → CarveState M → AffectedFaces → CarveState M × AffectedFaces
  | [], s, domain => (s, domain)
  | e :: es, s, domain =>
      let r := ops.relaxEdge s.mesh e domain
      relaxLoop ops es
        ⟨r.1, s.actions ++ [Record.relaxEdge e], s.calls ++ [Call.relaxEdge e]⟩ r.2

/-- The lambda `relaxEdges`. -/
def relaxStep (ops : CarveOps M) (s : CarveState M) (domain thisIteration : AffectedFaces) :
    CarveState M × AffectedFaces :=
  let r := relaxLoop ops (ops.edges s.mesh thisIteration) s domain
  (r.1, r.2.commit)

/-- The lambda `smoothVertices`. -/
def smoothStep (ops : CarveOps M) (s : CarveState M) (domain thisIteration : AffectedFaces) :
    CarveState M × AffectedFaces :=
  let vs := ops.toVertexSet s.mesh thisIteration
  let r := ops.smooth s.mesh vs domain
  (⟨r.1, s.actions ++ [Record.smooth vs], s.calls ++ [Call.smooth vs]⟩, r.2.commit)

/-- The member `subdivideEdges (brush, sphere, domain)`: its `for` loop runs the
body once. -/
def subdivideEdges (ops : CarveOps M) (brush : CarveBrush) (sphere : PrimSphere)
    (domain : AffectedFaces) (s : CarveState M) : CarveState M × AffectedFaces :=
  let thisIteration := thisIterationDomain ops sphere s.mesh domain domain
  let r1 := subdivideStep ops (maxLengthSqr brush) s domain thisIteration
  let r2 := relaxStep ops r1.1 r1.2.1 r1.2.2
  smoothStep ops r2.1 r2.2 r1.2.2

/-- The first loop of `finalize`: one write-normal record for every vertex. -/
def writeNormalsLoop (ops : CarveOps M) : List Nat → CarveState M → CarveState M
  | [], s => s
  | v :: vs, s =>
      writeNormalsLoop ops vs
        ⟨ops.writeInterpolatedNormal s.mesh v, s.actions ++ [Record.writeInterpolatedNormal v],
         s.calls ++ [Call.writeInterpolatedNormal v]⟩

/-- The second loop of `finalize`: every face of the domain is realigned. -/
def realignLoop (ops : CarveOps M) : List Nat → CarveState M → CarveState M
  | [], s => s
  | f :: fs, s =>
      realignLoop ops fs ⟨ops.realignFace s.mesh f, s.actions, s.calls ++ [Call.realignFace f]⟩

/-- The member `finalize (mesh, domain)`. -/
def finalize (ops : CarveOps M) (domain : AffectedFaces) (s : CarveState M) :
    CarveState M × AffectedFaces :=
  let s1 := writeNormalsLoop ops (ops.toVertexSet s.mesh domain) s
  let s2 := realignLoop ops domain.faces s1
  (s2, domain.reset)

/-- The member `run (brush)`. The call of `carveFaces` is commented out in the
source. -/
def run (ops : CarveOps M) (brush : CarveBrush) (s : CarveState M) : CarveState M :=
  let sphere : PrimSphere := ⟨brush.position, brush.width⟩
  let domain := ops.intersects s.mesh sphere AffectedFaces.empty
  let s1 : CarveState M := ⟨s.mesh, s.actions, s.calls ++ [Call.intersects]⟩
  let r2 := subdivideEdges ops brush sphere domain s1
  let r3 := finalize ops r2.2 r2.1
  ⟨ops.bufferData r3.1.mesh, r3.1.actions, r3.1.calls ++ [Call.bufferData]⟩

/-- Modelled from the spec: `action/unit/on.hpp` is not among the sources. The call
`actions.redo (mesh)` reapplies every record in append order; `redoRecord` is the
forward effect of one record. -/
def unitRedo (redoRecord : Record → M → M) (actions : List Record) (mesh : M) : M :=
  actions.foldl (fun m r => redoRecord r m) mesh

/-- Modelled from the spec: `action/unit/on.hpp` is not among the sources. The call
`actions.undo (mesh)` applies the inverse of every record in reverse append
order; `undoRecord` is the inverse effect of one record. -/
def unitUndo (undoRecord : Record → M → M) (actions : List Record) (mesh : M) : M :=
  actions.reverse.foldl (fun m r => undoRecord r m) mesh

/-- The member `runUndoBeforePostProcessing (mesh)`. -/
def runUndoBeforePostProcessing (undoRecord : Record → M → M) (s : CarveState M) (mesh : M) : M :=
  unitUndo undoRecord s.actions mesh

/-- The member `runRedoBeforePostProcessing (mesh)`. -/
def runRedoBeforePostProcessing (redoRecord : Record → M → M) (s : CarveState M) (mesh : M) : M :=
  unitRedo redoRecord s.actions mesh

end ActionCarve

/-! ## Example data -/

/-- A mesh for examples: the journal of the writes made to it. -/
abbrev Journal : Type := List String

/-- Vertex operations on the journal mesh; every vertex sits at the origin. -/
def journalVertexOps : VertexOps Journal where
  writeIndex := fun v m n => m ++ [s!"index {n} {v.index}"]
  writeNormal := fun v m => m ++ [s!"normal {v.index}"]
  vertex := fun _ _ => Vec3.zero

/-- An example vertex with index `i` and level `l`. -/
def exVertex (i l : Nat) : WingedVertex := ⟨i, l⟩

/-- An example edge from vertex `a` to vertex `b`, seen from its left face. -/
def exEdge (id : Nat) (a b : WingedVertex) : WingedEdge := ⟨id, a, b, false, true⟩

/-- An example two-sided face. -/
def exTwoGon : WingedFace :=
  ⟨7, exEdge 0 (exVertex 0 0) (exVertex 1 0), [exEdge 1 (exVertex 1 0) (exVertex 0 0)]⟩

/-- An example triangle whose vertices have the levels `a`, `b`, `c`. -/
def exTriangle (a b c : Nat) : WingedFace :=
  ⟨0, exEdge 0 (exVertex 0 a) (exVertex 1 b),
    [exEdge 1 (exVertex 1 b) (exVertex 2 c), exEdge 2 (exVertex 2 c) (exVertex 0 a)]⟩

/-- An example face with five boundary edges, the third and the fifth of which
are T-edges. -/
def exTFace : WingedFace :=
  ⟨0, exEdge 0 (exVertex 0 5) (exVertex 1 6),
    [exEdge 1 (exVertex 1 6) (exVertex 2 0),
     ⟨2, exVertex 2 3, exVertex 3 7, true, true⟩,
     exEdge 3 (exVertex 3 7) (exVertex 4 1),
     ⟨4, exVertex 4 9, exVertex 0 5, true, true⟩]⟩

/-- Collaborators of the carve action on the journal mesh. The mesh has one face,
number 0, with the edges 0, 1, 2 of squared lengths 9, 1, 1 and the vertices
0, 1, 2; a sphere meets the face when its radius is not zero. -/
def journalCarveOps : CarveOps Journal where
  intersects := fun _ sphere d => if sphere.radius = 0 then d else (d.insert 0).commit
  intersectsFace := fun _ _ _ => true
  extendDomain := fun _ d => d.commit
  edges := fun _ d => if d.faces.contains 0 then [0, 1, 2] else []
  toVertexSet := fun _ d => if d.faces.contains 0 then [0, 1, 2] else []
  lengthSqr := fun _ e => if e = 0 then 9 else 1
  vertex1 := fun _ e => 10 + e
  interpolatedNormal := fun _ _ => ⟨0, 0, 1⟩
  vector := fun _ _ => Vec3.zero
  writeNormal := fun m v _ => m ++ [s!"writeNormal {v}"]
  subdivideEdge := fun m e af => (m ++ [s!"subdivideEdge {e}"], af.insert (100 + e))
  relaxEdge := fun m e d => (m ++ [s!"relaxEdge {e}"], d)
  smooth := fun m vs d => (if vs = [] then m else m ++ ["smooth"], d)
  writeInterpolatedNormal := fun m v => m ++ [s!"writeInterpolatedNormal {v}"]
  move := fun m v _ => m ++ [s!"move {v}"]
  realignFace := fun m f => m ++ [s!"realignFace {f}"]
  bufferData := fun m => m

/-- Collaborators of the carve action on a mesh that is the list of the squared
lengths of its edges, edge `e` at place `e`. The mesh has one face, number 0,
with all the edges; a sphere meets the face when its radius is not zero.
Splitting an edge halves it (a quarter of the squared length) and appends the
other half as a new edge; the split adds face 1 to the affected faces. -/
def exLengthOps : CarveOps (List ℚ) where
  intersects := fun _ sphere d => if sphere.radius = 0 then d else (d.insert 0).commit
  intersectsFace := fun _ _ _ => true
  extendDomain := fun _ d => d.commit
  edges := fun m d => if d.faces.contains 0 then List.range m.length else []
  toVertexSet := fun m d => if d.faces.contains 0 then List.range m.length else []
  lengthSqr := fun m e => m.getD e 0
  vertex1 := fun _ e => e
  interpolatedNormal := fun _ _ => ⟨0, 0, 1⟩
  vector := fun _ _ => Vec3.zero
  writeNormal := fun m _ _ => m
  subdivideEdge := fun m e af => (m.set e (m.getD e 0 / 4) ++ [m.getD e 0 / 4], af.insert 1)
  relaxEdge := fun m _ d => (m, d)
  smooth := fun m _ d => (m, d)
  writeInterpolatedNormal := fun m _ => m
  move := fun m _ _ => m
  realignFace := fun m _ => m
  bufferData := fun m => m

/-- The state before a carve on a mesh with three edges of the squared lengths 9,
1 and 14913081/8388608; the last one lies between 16/9 and the bound
`maxLengthSqr` for the detail 1, which is 14913082/8388608. -/
def exLengthState : CarveState (List ℚ) := ⟨[9, 1, 14913081 / 8388608], [], []⟩

/-- An example of the forward effect of a record, on a mesh that is a number. -/
def exRedoRecord : Record → Int → Int
  | Record.subdivideEdge e, m => m + (e + 1)
  | Record.relaxEdge e, m => m - (e + 1)
  | Record.smooth vs, m => m + vs.length
  | Record.writeInterpolatedNormal v, m => m + 2 * v
  | Record.move v _, m => m - 2 * v

/-- The inverse effect of a record, for `exRedoRecord`. -/
def exUndoRecord : Record → Int → Int
  | Record.subdivideEdge e, m => m - (e + 1)
  | Record.relaxEdge e, m => m + (e + 1)
  | Record.smooth vs, m => m - vs.length
  | Record.writeInterpolatedNormal v, m => m - 2 * v
  | Record.move v _, m => m + 2 * v

/-- An example brush of width `w` and detail 1 at the origin. -/
def exBrush (w : ℚ) : CarveBrush := ⟨Vec3.zero, w, 1, fun _ => 0⟩

/-- The state before a carve on the journal mesh. -/
def exState : CarveState Journal := ⟨[], [], []⟩

/-- An example edge length: the identity number of the edge. -/
def exLength (e : WingedEdge) (_mesh : Journal) : ℚ := e.id

/-- An example distance: the squared Euclidean distance. -/
def exDistance (a b : Vec3) : ℚ := Vec3.dot (Vec3.sub a b) (Vec3.sub a b)

/-- An example brush at the origin with a falloff that is 1 at distance 0. -/
def exFalloffBrush : CarveBrush := ⟨Vec3.zero, 1, 1, fun d => 1 - d⟩

/-! ## Theorems about single precision -/

theorem roundHalfEven_eq (q : ℚ) (m : ℤ) (h1 : (m : ℚ) - 1 / 2 < q) (h2 : q < m + 1 / 2) :
    roundHalfEven q = m := by
  by_cases hq : (m : ℚ) ≤ q
  · have hf : ⌊q⌋ = m := by
      rw [Int.floor_eq_iff]
      constructor
      · exact hq
      · linarith
    simp only [roundHalfEven, hf]
    rw [if_pos (by linarith)]
  · push_neg at hq
    have hf : ⌊q⌋ = m - 1 := by
      rw [Int.floor_eq_iff]
      push_cast
      constructor <;> linarith
    simp only [roundHalfEven, hf]
    push_cast
    rw [if_neg (by linarith), if_pos (by linarith)]
    ring

theorem floatUlpExponent_eq (q : ℚ) (k : ℤ) (h1 : (2 : ℚ) ^ k ≤ |q|) (h2 : |q| < 2 ^ (k + 1))
    (hk : -126 ≤ k) : floatUlpExponent q = k - 23 := by
  have hpos : 0 < |q| := lt_of_lt_of_le (by positivity) h1
  have hlog : Int.log 2 |q| = k := by
    apply le_antisymm
    · have := (Int.lt_zpow_iff_log_lt (b := 2) (by norm_num) hpos (x := k + 1)).1
        (by exact_mod_cast h2)
      omega
    · exact (Int.zpow_le_iff_le_log (b := 2) (by norm_num) hpos).1 (by exact_mod_cast h1)
  simp only [floatUlpExponent, hlog]
  omega

/-- The value of `roundFloat` at a `q` of magnitude in `[2 ^ k, 2 ^ (k + 1))` that
is less than half a last place away from `m · 2 ^ (k - 23)`. -/
theorem roundFloat_eq (q : ℚ) (k m : ℤ) (h1 : (2 : ℚ) ^ k ≤ |q|) (h2 : |q| < 2 ^ (k + 1))
    (hk : -126 ≤ k) (h3 : (m : ℚ) - 1 / 2 < q / 2 ^ (k - 23))
    (h4 : q / 2 ^ (k - 23) < m + 1 / 2) :
    roundFloat q = m * 2 ^ (k - 23) := by
  simp only [roundFloat, floatUlpExponent_eq q k h1 h2 hk, roundHalfEven_eq _ m h3 h4]

theorem roundFloat_four_thirds : roundFloat (4 / 3) = 11184811 / 8388608 := by
  rw [roundFloat_eq (4 / 3) 0 11184811 (by norm_num [abs_of_pos]) (by norm_num [abs_of_pos])
    (by norm_num) (by norm_num) (by norm_num)]
  norm_num

/-- The bound of the subdivide step for a brush of detail 1: the `float`
14913082/8388608, which is above 16/9. -/
theorem maxLengthSqr_one (p : Vec3) (w : ℚ) (y : ℚ → ℚ) :
    ActionCarve.maxLengthSqr ⟨p, w, 1, y⟩ = 14913082 / 8388608 := by
  simp only [ActionCarve.maxLengthSqr, roundFloat_four_thirds, mul_one]
  have h1 : roundFloat (11184811 / 8388608) = 11184811 / 8388608 := by
    rw [roundFloat_eq (11184811 / 8388608) 0 11184811 (by norm_num [abs_of_pos])
      (by norm_num [abs_of_pos]) (by norm_num) (by norm_num) (by norm_num)]
    norm_num
  rw [h1]
  rw [roundFloat_eq (11184811 / 8388608 * (11184811 / 8388608)) 0 14913082
    (by norm_num [abs_of_pos]) (by norm_num [abs_of_pos]) (by norm_num) (by norm_num)
    (by norm_num)]
  norm_num

/-! ## Theorems about faces -/

namespace WingedFace

variable {M : Type}

theorem numEdges_foldl (es : List WingedEdge) (a : Nat) (h : a + es.length < UINT_MOD) :
    es.foldl (fun i _ => (i + 1) % UINT_MOD) a = a + es.length := by
  induction es generalizing a with
  | nil => simp
  | cons e es ih =>
    simp only [List.foldl_cons, List.length_cons] at h ⊢
    have h1 : (a + 1) % UINT_MOD = a + 1 := Nat.mod_eq_of_lt (by omega)
    rw [h1, ih (a + 1) (by omega)]
    omega

theorem numEdges_eq_length (f : WingedFace) (h : f.adjacentEdges.length < UINT_MOD) :
    f.numEdges = f.adjacentEdges.length := by
  unfold numEdges
  rw [numEdges_foldl f.adjacentEdges 0 (by omega)]
  omega

theorem isTriangle_iff (f : WingedFace) (h : f.adjacentEdges.length < UINT_MOD) :
    f.isTriangle = true ↔ f.adjacentEdges.length = 3 := by
  unfold isTriangle
  rw [numEdges_eq_length f h]
  simp

/-- C1: on a face whose boundary does not have exactly 3 edges, `writeIndices`,
`write`, `triangle` and `incircleRadius` stop on the triangle assertion with the
face and the mesh as they were; on a face with exactly 3 boundary edges none of
them stops on it; `writeNormals` writes the normals of all boundary vertices
whatever the number of edges. The boundary is shorter than `2 ^ 32`, the range
of the edge counter. -/
theorem C1_triangle_assertion (ops : VertexOps M) (sqrt : ℚ → ℚ) (f : WingedFace) (mesh : M)
    (newFIN : Option Nat) (hlen : f.adjacentEdges.length < UINT_MOD) :
    (f.adjacentEdges.length ≠ 3 →
      writeIndices ops f mesh newFIN = ⟨(f, mesh), some Fault.isTriangle⟩ ∧
      write ops f mesh newFIN = ⟨(f, mesh), some Fault.isTriangle⟩ ∧
      triangle ops f mesh = .error Fault.isTriangle ∧
      incircleRadius ops sqrt f mesh = .error Fault.isTriangle) ∧
    (f.adjacentEdges.length = 3 →
      (writeIndices ops f mesh newFIN).fault = none ∧
      (write ops f mesh newFIN).fault = none ∧
      (∃ t, triangle ops f mesh = .ok t) ∧
      (∃ r, incircleRadius ops sqrt f mesh = .ok r)) ∧
    writeNormals ops f mesh = f.adjacentVertices.foldl (fun m v => ops.writeNormal v m) mesh := by
  refine ⟨fun hne => ?_, fun h3 => ?_, rfl⟩
  · have hf : f.isTriangle = false := by
      cases h : f.isTriangle with
      | false => rfl
      | true => exact absurd ((isTriangle_iff f hlen).1 h) hne
    simp [writeIndices, write, triangle, incircleRadius, hf]
  · have ht : f.isTriangle = true := (isTriangle_iff f hlen).2 h3
    simp [writeIndices, write, triangle, incircleRadius, ht]

/-- C1 at the two-sided example face and at an example triangle. -/
theorem C1_triangle_assertion_witness :
    (writeIndices journalVertexOps exTwoGon [] (some 5)
        = ⟨(exTwoGon, []), some Fault.isTriangle⟩ ∧
      write journalVertexOps exTwoGon [] (some 5) = ⟨(exTwoGon, []), some Fault.isTriangle⟩ ∧
      triangle journalVertexOps exTwoGon [] = .error Fault.isTriangle ∧
      incircleRadius journalVertexOps id exTwoGon [] = .error Fault.isTriangle) ∧
    ((writeIndices journalVertexOps (exTriangle 0 0 0) [] none).fault = none ∧
      (write journalVertexOps (exTriangle 0 0 0) [] none).fault = none ∧
      (∃ t, triangle journalVertexOps (exTriangle 0 0 0) [] = .ok t) ∧
      (∃ r, incircleRadius journalVertexOps id (exTriangle 0 0 0) [] = .ok r)) :=
  ⟨(C1_triangle_assertion journalVertexOps id exTwoGon [] (some 5) (by decide)).1 (by decide),
   (C1_triangle_assertion journalVertexOps id (exTriangle 0 0 0) [] none (by decide)).2.1
     (by decide)⟩

theorem levelMinEdges_tEdge (min : Nat) (es : List WingedEdge) (l : Nat) (e : WingedEdge)
    (h : es.find? (fun e => e.isTEdge) = some e) :
    levelMinEdges min es l = LevelScan.tEdge ((e.vertex1.level + UINT_MOD - 1) % UINT_MOD) := by
  induction es generalizing l with
  | nil => simp at h
  | cons x xs ih =>
    cases hx : x.isTEdge with
    | true =>
      simp [List.find?_cons, hx] at h
      subst h
      simp [levelMinEdges, hx]
    | false =>
      simp [List.find?_cons, hx] at h
      simp only [levelMinEdges, hx]
      exact ih _ h

theorem levelMin_update (min l a b : Nat) :
    (if min ≤ b then Nat.min (if min ≤ a then Nat.min l a else l) b
      else (if min ≤ a then Nat.min l a else l)) ≤ l ∧
    ((if min ≤ b then Nat.min (if min ≤ a then Nat.min l a else l) b
      else (if min ≤ a then Nat.min l a else l)) = l ∨
      (((if min ≤ b then Nat.min (if min ≤ a then Nat.min l a else l) b
        else (if min ≤ a then Nat.min l a else l)) = a ∨
        (if min ≤ b then Nat.min (if min ≤ a then Nat.min l a else l) b
        else (if min ≤ a then Nat.min l a else l)) = b) ∧
       min ≤ (if min ≤ b then Nat.min (if min ≤ a then Nat.min l a else l) b
        else (if min ≤ a then Nat.min l a else l)))) ∧
    (min ≤ a → (if min ≤ b then Nat.min (if min ≤ a then Nat.min l a else l) b
      else (if min ≤ a then Nat.min l a else l)) ≤ a) ∧
    (min ≤ b → (if min ≤ b then Nat.min (if min ≤ a then Nat.min l a else l) b
      else (if min ≤ a then Nat.min l a else l)) ≤ b) := by
  simp only [Nat.min_def]
  split_ifs <;>
    refine ⟨by omega, ?_, fun _ => by omega, fun _ => by omega⟩ <;>
    first
      | exact Or.inl rfl
      | exact Or.inr ⟨Or.inl rfl, by omega⟩
      | exact Or.inr ⟨Or.inr rfl, by omega⟩

theorem levelMinEdges_scanned (min : Nat) (es : List WingedEdge) (l : Nat)
    (hT : ∀ e ∈ es, e.isTEdge = false) :
    ∃ r, levelMinEdges min es l = LevelScan.scanned r ∧ r ≤ l ∧
      (r = l ∨ ∃ e ∈ es, (r = e.vertex1.level ∨ r = e.vertex2.level) ∧ min ≤ r) ∧
      (∀ e ∈ es, (min ≤ e.vertex1.level → r ≤ e.vertex1.level) ∧
        (min ≤ e.vertex2.level → r ≤ e.vertex2.level)) := by
  induction es generalizing l with
  | nil => exact ⟨l, rfl, le_refl _, Or.inl rfl, by simp⟩
  | cons x xs ih =>
    have hx : x.isTEdge = false := hT x (List.mem_cons_self _ _)
    have hxs : ∀ e ∈ xs, e.isTEdge = false := fun e he => hT e (List.mem_cons_of_mem _ he)
    obtain ⟨u1, u2, u3, u4⟩ := levelMin_update min l x.vertex1.level x.vertex2.level
    obtain ⟨r, hr, hle, hmem, hmin⟩ := ih
      (if min ≤ x.vertex2.level then
        Nat.min (if min ≤ x.vertex1.level then Nat.min l x.vertex1.level else l) x.vertex2.level
       else (if min ≤ x.vertex1.level then Nat.min l x.vertex1.level else l)) hxs
    refine ⟨r, ?_, le_trans hle u1, ?_, ?_⟩
    · simp only [levelMinEdges, hx]
      exact hr
    · rcases hmem with h | ⟨e, he, h1, h2⟩
      · rcases u2 with u | ⟨u, um⟩
        · exact Or.inl (h.trans u)
        · exact Or.inr ⟨x, List.mem_cons_self _ _, by rw [h]; exact u, by rw [h]; exact um⟩
      · exact Or.inr ⟨e, List.mem_cons_of_mem _ he, h1, h2⟩
    · intro e he
      rcases List.mem_cons.1 he with rfl | he
      · exact ⟨fun h => le_trans hle (u3 h), fun h => le_trans hle (u4 h)⟩
      · exact hmin e he

theorem levelCount_eq (l : Nat) (vs : List WingedVertex) (c : Nat)
    (h : c + vs.length < UINT_MOD) :
    levelCount l vs c = c + vs.countP (fun v => decide (v.level = l)) := by
  induction vs generalizing c with
  | nil => simp [levelCount]
  | cons v vs ih =>
    simp only [List.length_cons] at h
    by_cases hv : v.level = l
    · have h1 : (c + 1) % UINT_MOD = c + 1 := Nat.mod_eq_of_lt (by omega)
      simp only [levelCount, hv, if_true, h1]
      rw [ih (c + 1) (by omega), List.countP_cons_of_pos]
      · omega
      · simp [hv]
    · simp only [levelCount, hv, if_false]
      rw [ih c (by omega), List.countP_cons_of_neg]
      simp [hv]

/-- C4: when the boundary has a T-edge, `level` returns, in its first call of
`levelMin` (threshold 0, one unit of fuel is enough), the level of `vertex1` of
the first T-edge of the traversal minus 1 in `unsigned int` arithmetic; no other
vertex level enters the result. -/
theorem C4_level_tEdge (f : WingedFace) (e : WingedEdge) (fuel : Nat)
    (h : f.firstTEdge = some e) :
    level f (fuel + 1) = some ((e.vertex1.level + UINT_MOD - 1) % UINT_MOD) ∧
    levelMinThreshold f (fuel + 1) 0 = some 0 ∧
    (0 < e.vertex1.level → e.vertex1.level < UINT_MOD →
      level f (fuel + 1) = some (e.vertex1.level - 1)) ∧
    (e.vertex1.level = 0 → level f (fuel + 1) = some UINT_MAX) := by
  have hs := levelMinEdges_tEdge 0 f.adjacentEdges UINT_MAX e h
  have hl : level f (fuel + 1) = some ((e.vertex1.level + UINT_MOD - 1) % UINT_MOD) := by
    simp [level, levelMin, hs]
  refine ⟨hl, by simp [levelMinThreshold, hs], ?_, ?_⟩
  · intro h0 h1
    rw [hl]
    have : e.vertex1.level + UINT_MOD - 1 = (e.vertex1.level - 1) + UINT_MOD := by omega
    rw [this, Nat.add_mod_right, Nat.mod_eq_of_lt (by omega)]
  · intro h0
    rw [hl, h0]
    decide

/-- C4 at the example face with two T-edges: the first one has a `vertex1` of
level 3, so the face has level 2. -/
theorem C4_level_tEdge_witness :
    level exTFace 1 = some ((3 + UINT_MOD - 1) % UINT_MOD) ∧
    levelMinThreshold exTFace 1 0 = some 0 ∧
    level exTFace 1 = some 2 :=
  have h := C4_level_tEdge exTFace ⟨2, exVertex 2 3, exVertex 3 7, true, true⟩ 0 (by decide)
  ⟨h.1, h.2.1, h.2.2.1 (by decide) (by decide)⟩

theorem countP_lt_countP {α : Type} (p q : α → Bool) (l : List α)
    (h : ∀ x ∈ l, p x = true → q x = true) (x : α) (hx : x ∈ l) (hq : q x = true)
    (hp : p x = false) : l.countP p < l.countP q := by
  induction l with
  | nil => simp at hx
  | cons y ys ih =>
    have hmono : ys.countP p ≤ ys.countP q :=
      List.countP_mono_left (fun z hz => h z (List.mem_cons_of_mem _ hz))
    rcases List.mem_cons.1 hx with rfl | hx
    · rw [List.countP_cons_of_pos _ _ hq, List.countP_cons_of_neg _ _ (by simp [hp])]
      omega
    · have ih1 := ih (fun z hz => h z (List.mem_cons_of_mem _ hz)) hx
      by_cases hpy : p y = true
      · rw [List.countP_cons_of_pos _ _ hpy,
          List.countP_cons_of_pos _ _ (h y (List.mem_cons_self _ _) hpy)]
        omega
      · rw [List.countP_cons_of_neg _ _ hpy]
        by_cases hqy : q y = true
        · rw [List.countP_cons_of_pos _ _ hqy]
          omega
        · rw [List.countP_cons_of_neg _ _ hqy]
          exact ih1

theorem countP_add_countP_le {α : Type} (p q : α → Bool) (l : List α)
    (h : ∀ x ∈ l, p x = true → q x = false) : l.countP p + l.countP q ≤ l.length := by
  induction l with
  | nil => simp
  | cons y ys ih =>
    have ih1 := ih (fun z hz => h z (List.mem_cons_of_mem _ hz))
    by_cases hpy : p y = true
    · rw [List.countP_cons_of_pos _ _ hpy,
        List.countP_cons_of_neg _ _ (by simp [h y (List.mem_cons_self _ _) hpy])]
      simp only [List.length_cons]
      omega
    · rw [List.countP_cons_of_neg _ _ hpy]
      by_cases hqy : q y = true
      · rw [List.countP_cons_of_pos _ _ hqy]
        simp only [List.length_cons]
        omega
      · rw [List.countP_cons_of_neg _ _ hqy]
        simp only [List.length_cons]
        omega

theorem mem_adjacentVertices_endpoint (f : WingedFace) (v : WingedVertex)
    (hv : v ∈ f.adjacentVertices) :
    ∃ e ∈ f.adjacentEdges, v = e.vertex1 ∨ v = e.vertex2 := by
  unfold adjacentVertices at hv
  obtain ⟨e, he, rfl⟩ := List.mem_map.1 hv
  refine ⟨e, he, ?_⟩
  unfold WingedEdge.firstVertexRef
  split_ifs
  · exact Or.inl rfl
  · exact Or.inr rfl

/-- One run of the edge loop of `levelMin` on a face without T-edge whose edge end
points are all boundary vertices: the loop yields the smallest vertex level at or
above the threshold, or `UINT_MAX` when there is none. -/
theorem levelMin_scan (f : WingedFace) (min : Nat)
    (hT : ∀ e ∈ f.adjacentEdges, e.isTEdge = false)
    (hwf : ∀ e ∈ f.adjacentEdges, e.vertex1 ∈ f.adjacentVertices ∧ e.vertex2 ∈ f.adjacentVertices)
    (hb : ∀ v ∈ f.adjacentVertices, v.level ≤ UINT_MAX) :
    ∃ l, levelMinEdges min f.adjacentEdges UINT_MAX = LevelScan.scanned l ∧
      ((∃ v ∈ f.adjacentVertices, min ≤ v.level) →
        (∃ v ∈ f.adjacentVertices, v.level = l) ∧ min ≤ l ∧
        ∀ v ∈ f.adjacentVertices, min ≤ v.level → l ≤ v.level) ∧
      ((∀ v ∈ f.adjacentVertices, v.level < min) → l = UINT_MAX) := by
  obtain ⟨r, hr, hle, hmem, hmin⟩ := levelMinEdges_scanned min f.adjacentEdges UINT_MAX hT
  have hlow : ∀ v ∈ f.adjacentVertices, min ≤ v.level → r ≤ v.level := by
    intro v hv hm
    obtain ⟨e, he, h | h⟩ := mem_adjacentVertices_endpoint f v hv
    · rw [h] at hm ⊢
      exact (hmin e he).1 hm
    · rw [h] at hm ⊢
      exact (hmin e he).2 hm
  refine ⟨r, hr, ?_, ?_⟩
  · rintro ⟨v, hv, hm⟩
    have hrv := hlow v hv hm
    rcases hmem with h | ⟨e, he, h1, h2⟩
    · have hvb := hb v hv
      exact ⟨⟨v, hv, by omega⟩, by omega, hlow⟩
    · refine ⟨?_, h2, hlow⟩
      rcases h1 with h1 | h1
      · exact ⟨e.vertex1, (hwf e he).1, h1.symm⟩
      · exact ⟨e.vertex2, (hwf e he).2, h1.symm⟩
  · intro hall
    rcases hmem with h | ⟨e, he, h1, h2⟩
    · exact h
    · rcases h1 with h1 | h1
      · have := hall e.vertex1 (hwf e he).1
        omega
      · have := hall e.vertex2 (hwf e he).2
        omega

theorem levelCount_face (f : WingedFace) (l : Nat) (hlen : f.adjacentEdges.length < UINT_MOD) :
    levelCount l f.adjacentVertices 0
      = f.adjacentVertices.countP (fun v => decide (v.level = l)) := by
  rw [levelCount_eq l f.adjacentVertices 0 (by simp [adjacentVertices]; exact hlen)]
  omega

/-- The recursion of `levelMin` on a face without T-edge in which the level `a` is
the smallest level held by at least two boundary vertices: started at a threshold
at most `a`, with more fuel than there are vertices between the threshold and
`a`, it returns `a`, and the call that returns has a threshold `t` for which `a`
is the smallest vertex level at or above `t`. -/
theorem levelMin_shared (f : WingedFace) (a : Nat)
    (hT : ∀ e ∈ f.adjacentEdges, e.isTEdge = false)
    (hwf : ∀ e ∈ f.adjacentEdges, e.vertex1 ∈ f.adjacentVertices ∧ e.vertex2 ∈ f.adjacentVertices)
    (hb : ∀ v ∈ f.adjacentVertices, v.level ≤ UINT_MAX)
    (hlen : f.adjacentEdges.length < UINT_MOD)
    (ha : 2 ≤ f.adjacentVertices.countP (fun v => decide (v.level = a)))
    (hamin : ∀ b, b < a → f.adjacentVertices.countP (fun v => decide (v.level = b)) ≤ 1)
    (fuel min : Nat) (hmin : min ≤ a)
    (hfuel : f.adjacentVertices.countP (fun v => decide (min ≤ v.level) && decide (v.level < a))
      < fuel) :
    levelMin f fuel min = some a ∧
    ∃ t, levelMinThreshold f fuel min = some t ∧ min ≤ t ∧ t ≤ a ∧
      ∀ v ∈ f.adjacentVertices, t ≤ v.level → a ≤ v.level := by
  induction fuel generalizing min with
  | zero => omega
  | succ fuel ih =>
    obtain ⟨va, hva, hvaa⟩ : ∃ v ∈ f.adjacentVertices, v.level = a := by
      have hpos : 0 < f.adjacentVertices.countP (fun v => decide (v.level = a)) := by omega
      obtain ⟨v, hv, hp⟩ := List.countP_pos_iff.1 hpos
      exact ⟨v, hv, by simpa using hp⟩
    have haU : a ≤ UINT_MAX := hvaa ▸ hb va hva
    obtain ⟨l, hl, h1, _⟩ := levelMin_scan f min hT hwf hb
    obtain ⟨⟨vl, hvl, hvll⟩, hml, hlow⟩ := h1 ⟨va, hva, by omega⟩
    have hla : l ≤ a := by
      have := hlow va hva (by omega)
      omega
    have hcnt := levelCount_face f l hlen
    by_cases hEq : l = a
    · subst hEq
      have hne : levelCount l f.adjacentVertices 0 ≠ 1 := by omega
      refine ⟨by simp [levelMin, hl, hne], min, by simp [levelMinThreshold, hl, hne],
        le_refl _, hmin, hlow⟩
    · have hlt : l < a := by omega
      have hone : levelCount l f.adjacentVertices 0 = 1 := by
        have h1 := hamin l hlt
        have h2 : 0 < f.adjacentVertices.countP (fun v => decide (v.level = l)) :=
          List.countP_pos_iff.2 ⟨vl, hvl, by simpa using hvll⟩
        omega
      have hmod : (l + 1) % UINT_MOD = l + 1 := by
        apply Nat.mod_eq_of_lt
        unfold UINT_MAX at haU
        unfold UINT_MOD
        omega
      have hdrop : f.adjacentVertices.countP
            (fun v => decide (l + 1 ≤ v.level) && decide (v.level < a))
          < f.adjacentVertices.countP
            (fun v => decide (min ≤ v.level) && decide (v.level < a)) := by
        apply countP_lt_countP _ _ _ _ vl hvl
        · simp only [Bool.and_eq_true, decide_eq_true_eq]
          omega
        · simp only [Bool.and_eq_false_iff, decide_eq_false_iff_not]
          omega
        · intro x _ hx
          simp only [Bool.and_eq_true, decide_eq_true_eq] at hx ⊢
          omega
      obtain ⟨r1, t, ht, ht1, ht2, ht3⟩ := ih (l + 1) (by omega) (by omega)
      refine ⟨by simp [levelMin, hl, hone, hmod, r1], t,
        by simp [levelMinThreshold, hl, hone, hmod, ht], by omega, ht2, ht3⟩

theorem noTEdge_of_firstTEdge (f : WingedFace) (h : f.firstTEdge = none) :
    ∀ e ∈ f.adjacentEdges, e.isTEdge = false := by
  intro e he
  unfold firstTEdge at h
  have := List.find?_eq_none.1 h e he
  simpa using this

theorem countP_level_le_one (vs : List WingedVertex) (l : Nat)
    (hnd : (vs.map WingedVertex.level).Nodup) :
    vs.countP (fun v => decide (v.level = l)) ≤ 1 := by
  induction vs with
  | nil => simp
  | cons v vs ih =>
    simp only [List.map_cons, List.nodup_cons] at hnd
    obtain ⟨hv, hnd1⟩ := hnd
    by_cases hl : v.level = l
    · have h0 : vs.countP (fun v => decide (v.level = l)) = 0 := by
        rw [List.countP_eq_zero]
        intro x hx hxl
        apply hv
        simp only [decide_eq_true_eq] at hxl
        rw [hl, ← hxl]
        exact List.mem_map_of_mem _ hx
      rw [List.countP_cons_of_pos _ _ (by simp [hl]), h0]
    · rw [List.countP_cons_of_neg _ _ (by simp [hl])]
      exact ih hnd1

/-- The recursion of `levelMin` on a face without T-edge whose vertex levels are
pairwise distinct and below `UINT_MAX`: started with more fuel than there are
vertices at or above the threshold, it passes every vertex and returns
`UINT_MAX`. -/
theorem levelMin_distinct (f : WingedFace)
    (hT : ∀ e ∈ f.adjacentEdges, e.isTEdge = false)
    (hwf : ∀ e ∈ f.adjacentEdges, e.vertex1 ∈ f.adjacentVertices ∧ e.vertex2 ∈ f.adjacentVertices)
    (hb : ∀ v ∈ f.adjacentVertices, v.level < UINT_MAX)
    (hlen : f.adjacentEdges.length < UINT_MOD)
    (hnd : (f.adjacentVertices.map WingedVertex.level).Nodup)
    (fuel min : Nat)
    (hfuel : f.adjacentVertices.countP (fun v => decide (min ≤ v.level)) < fuel) :
    levelMin f fuel min = some UINT_MAX := by
  induction fuel generalizing min with
  | zero => omega
  | succ fuel ih =>
    obtain ⟨l, hl, h1, h2⟩ := levelMin_scan f min hT hwf (fun v hv => le_of_lt (hb v hv))
    have hcnt := levelCount_face f l hlen
    by_cases hex : ∃ v ∈ f.adjacentVertices, min ≤ v.level
    · obtain ⟨⟨vl, hvl, hvll⟩, hml, _⟩ := h1 hex
      have hone : levelCount l f.adjacentVertices 0 = 1 := by
        have hle := countP_level_le_one f.adjacentVertices l hnd
        have hpos : 0 < f.adjacentVertices.countP (fun v => decide (v.level = l)) :=
          List.countP_pos_iff.2 ⟨vl, hvl, by simpa using hvll⟩
        omega
      have hlU : l < UINT_MAX := hvll ▸ hb vl hvl
      have hmod : (l + 1) % UINT_MOD = l + 1 := by
        apply Nat.mod_eq_of_lt
        unfold UINT_MAX at hlU
        unfold UINT_MOD
        omega
      have hdrop : f.adjacentVertices.countP (fun v => decide (l + 1 ≤ v.level))
          < f.adjacentVertices.countP (fun v => decide (min ≤ v.level)) := by
        apply countP_lt_countP _ _ _ _ vl hvl
        · simp only [decide_eq_true_eq]
          omega
        · simp only [decide_eq_false_iff_not]
          omega
        · intro x _ hx
          simp only [decide_eq_true_eq] at hx ⊢
          omega
      have hr := ih (l + 1) (by omega)
      simp [levelMin, hl, hone, hmod, hr]
    · have hall : ∀ v ∈ f.adjacentVertices, v.level < min := by
        intro v hv
        by_contra hc
        exact hex ⟨v, hv, by omega⟩
      have hlmax := h2 hall
      have hzero : f.adjacentVertices.countP (fun v => decide (v.level = l)) = 0 := by
        rw [List.countP_eq_zero]
        intro v hv hvl
        simp only [decide_eq_true_eq] at hvl
        have := hb v hv
        omega
      have hne : levelCount l f.adjacentVertices 0 ≠ 1 := by omega
      simp only [levelMin, hl]
      rw [if_neg hne, hlmax]

/-- The recursion of `levelMin` on a face without T-edge whose vertex levels are
pairwise distinct, one of them being `UINT_MAX`: every scan ends at a level held
by one vertex, the threshold after `UINT_MAX` is 0 again, and no call returns. -/
theorem levelMin_never (f : WingedFace)
    (hT : ∀ e ∈ f.adjacentEdges, e.isTEdge = false)
    (hwf : ∀ e ∈ f.adjacentEdges, e.vertex1 ∈ f.adjacentVertices ∧ e.vertex2 ∈ f.adjacentVertices)
    (hb : ∀ v ∈ f.adjacentVertices, v.level ≤ UINT_MAX)
    (hlen : f.adjacentEdges.length < UINT_MOD)
    (hnd : (f.adjacentVertices.map WingedVertex.level).Nodup)
    (hmax : ∃ v ∈ f.adjacentVertices, v.level = UINT_MAX)
    (fuel min : Nat) :
    levelMin f fuel min = none := by
  induction fuel generalizing min with
  | zero => rfl
  | succ fuel ih =>
    obtain ⟨l, hl, h1, h2⟩ := levelMin_scan f min hT hwf hb
    have hcnt := levelCount_face f l hlen
    have hlv : ∃ v ∈ f.adjacentVertices, v.level = l := by
      by_cases hex : ∃ v ∈ f.adjacentVertices, min ≤ v.level
      · exact (h1 hex).1
      · have hall : ∀ v ∈ f.adjacentVertices, v.level < min := by
          intro v hv
          by_contra hc
          exact hex ⟨v, hv, by omega⟩
        rw [h2 hall]
        exact hmax
    obtain ⟨vl, hvl, hvll⟩ := hlv
    have hone : levelCount l f.adjacentVertices 0 = 1 := by
      have hle := countP_level_le_one f.adjacentVertices l hnd
      have hpos : 0 < f.adjacentVertices.countP (fun v => decide (v.level = l)) :=
        List.countP_pos_iff.2 ⟨vl, hvl, by simpa using hvll⟩
      omega
    simp [levelMin, hl, hone, ih]

/-- C5 (amended): on a triangular face without T-edge, whose edge end points are
its boundary vertices and whose levels are `unsigned int` values: if at least two
of the three vertices have the level `a`, then `level` returns `a` after at most
two calls of `levelMin`, `a` is the level of a boundary vertex, and it is the
smallest vertex level at or above the threshold `t` of the call that returns; if
the three levels are pairwise distinct and below `UINT_MAX`, then `level`
returns `UINT_MAX` after at most four calls, which is no vertex level; if they
are pairwise distinct and one of them is `UINT_MAX`, then `level` never returns,
whatever the fuel. -/
theorem C5_level_shared (f : WingedFace) (fuel : Nat)
    (h3 : f.adjacentEdges.length = 3) (hT : f.firstTEdge = none)
    (hwf : ∀ e ∈ f.adjacentEdges, e.vertex1 ∈ f.adjacentVertices ∧ e.vertex2 ∈ f.adjacentVertices)
    (hb : ∀ v ∈ f.adjacentVertices, v.level ≤ UINT_MAX) :
    (∀ a, 2 ≤ f.adjacentVertices.countP (fun v => decide (v.level = a)) →
      level f (fuel + 2) = some a ∧
      (∃ v ∈ f.adjacentVertices, v.level = a) ∧
      ∃ t, levelMinThreshold f (fuel + 2) 0 = some t ∧ t ≤ a ∧
        ∀ v ∈ f.adjacentVertices, t ≤ v.level → a ≤ v.level) ∧
    ((f.adjacentVertices.map WingedVertex.level).Nodup →
      (∀ v ∈ f.adjacentVertices, v.level < UINT_MAX) →
      level f (fuel + 4) = some UINT_MAX ∧ ∀ v ∈ f.adjacentVertices, v.level ≠ UINT_MAX) ∧
    ((f.adjacentVertices.map WingedVertex.level).Nodup →
      (∃ v ∈ f.adjacentVertices, v.level = UINT_MAX) →
      ∀ n, level f n = none) := by
  have hvlen : f.adjacentVertices.length = 3 := by simp [adjacentVertices, h3]
  have hlen : f.adjacentEdges.length < UINT_MOD := by rw [h3]; decide
  refine ⟨?_, ?_, ?_⟩
  · intro a ha
    have hamin : ∀ b, b < a → f.adjacentVertices.countP (fun v => decide (v.level = b)) ≤ 1 := by
      intro b hba
      have := countP_add_countP_le (fun v : WingedVertex => decide (v.level = a))
        (fun v => decide (v.level = b)) f.adjacentVertices (by
          intro x _ hx
          simp only [decide_eq_true_eq, decide_eq_false_iff_not] at hx ⊢
          omega)
      omega
    have hfuel : f.adjacentVertices.countP
        (fun v => decide (0 ≤ v.level) && decide (v.level < a)) < fuel + 2 := by
      have := countP_add_countP_le (fun v : WingedVertex => decide (v.level = a))
        (fun v => decide (0 ≤ v.level) && decide (v.level < a)) f.adjacentVertices (by
          intro x _ hx
          simp only [decide_eq_true_eq, Bool.and_eq_false_iff, decide_eq_false_iff_not] at hx ⊢
          omega)
      omega
    obtain ⟨hr, t, ht, _, ht2, ht3⟩ := levelMin_shared f a (noTEdge_of_firstTEdge f hT) hwf hb
      hlen ha hamin (fuel + 2) 0 (Nat.zero_le _) hfuel
    refine ⟨hr, ?_, t, ht, ht2, ht3⟩
    have hpos : 0 < f.adjacentVertices.countP (fun v => decide (v.level = a)) := by omega
    obtain ⟨v, hv, hp⟩ := List.countP_pos_iff.1 hpos
    exact ⟨v, hv, by simpa using hp⟩
  · intro hnd hlt
    have hc : f.adjacentVertices.countP (fun v => decide (0 ≤ v.level))
        ≤ f.adjacentVertices.length := List.countP_le_length _
    refine ⟨levelMin_distinct f (noTEdge_of_firstTEdge f hT) hwf hlt hlen hnd (fuel + 4) 0
      (by omega), ?_⟩
    intro v hv
    have := hlt v hv
    omega
  · intro hnd hmax n
    exact levelMin_never f (noTEdge_of_firstTEdge f hT) hwf hb hlen hnd hmax n 0

/-- C5 at the example triangles with the vertex levels 3, 1, 3 (the shared level
3 is returned by the second call, whose threshold is 2), 5, 1, 3 (distinct:
`UINT_MAX` is returned) and `UINT_MAX`, 0, 1 (no return). -/
theorem C5_level_shared_witness :
    (level (exTriangle 3 1 3) 2 = some 3 ∧
      (∃ v ∈ (exTriangle 3 1 3).adjacentVertices, v.level = 3) ∧
      ∃ t, levelMinThreshold (exTriangle 3 1 3) 2 0 = some t ∧ t ≤ 3 ∧
        ∀ v ∈ (exTriangle 3 1 3).adjacentVertices, t ≤ v.level → 3 ≤ v.level) ∧
    level (exTriangle 5 1 3) 4 = some UINT_MAX ∧
    (∀ n, level (exTriangle 4294967295 0 1) n = none) :=
  ⟨(C5_level_shared (exTriangle 3 1 3) 0 (by decide) (by decide) (by decide) (by decide)).1
      3 (by decide),
   ((C5_level_shared (exTriangle 5 1 3) 0 (by decide) (by decide) (by decide)
      (by decide)).2.1 (by decide) (by decide)).1,
   (C5_level_shared (exTriangle 4294967295 0 1) 0 (by decide) (by decide) (by decide)
      (by decide)).2.2 (by decide) (by decide)⟩

/-- C5 as stated fails: on the example triangle without T-edge whose vertex levels
are 0, 1 and 2, `level` returns `UINT_MAX` (from the fourth call of `levelMin`;
with less fuel the recursion is still running), which is no vertex level. -/
theorem C5_counterexample :
    (exTriangle 0 1 2).adjacentEdges.length = 3 ∧
    (exTriangle 0 1 2).firstTEdge = none ∧
    (exTriangle 0 1 2).adjacentVertices.map WingedVertex.level = [0, 1, 2] ∧
    level (exTriangle 0 1 2) 3 = none ∧
    level (exTriangle 0 1 2) 4 = some 4294967295 ∧
    levelMinThreshold (exTriangle 0 1 2) 4 0 = some 3 := by
  decide

/-- C10 (amended): `normal` has no check and never stops on a fault. On every
face it returns `normalize` applied to the cross product of `(v2 - v1)` and
`(v3 - v2)`, where `v1`, `v2`, `v3` are the positions of the vertices
`_edge->vertex (face, 0)`, `(face, 1)`, `(face, 2)`; on a face whose vertex
traversal starts with `a`, `b`, `c` these are the positions of `a`, `b`, `c`; and
on a face for which that cross product is the zero vector it returns `normalize`
of the zero vector. -/
theorem C10_normal_total (ops : VertexOps M) (normalize : Vec3 → Vec3) (f : WingedFace)
    (mesh : M) :
    normal ops normalize f mesh
      = .ok (normalize (Vec3.cross
          (Vec3.sub (ops.vertex (f.edgeVertex 1) mesh) (ops.vertex (f.edgeVertex 0) mesh))
          (Vec3.sub (ops.vertex (f.edgeVertex 2) mesh) (ops.vertex (f.edgeVertex 1) mesh)))) ∧
    (∀ e, normal ops normalize f mesh ≠ .error e) ∧
    (∀ a b c rest, f.adjacentVertices = a :: b :: c :: rest →
      normal ops normalize f mesh
        = .ok (normalize (Vec3.cross (Vec3.sub (ops.vertex b mesh) (ops.vertex a mesh))
            (Vec3.sub (ops.vertex c mesh) (ops.vertex b mesh))))) ∧
    (Vec3.cross
        (Vec3.sub (ops.vertex (f.edgeVertex 1) mesh) (ops.vertex (f.edgeVertex 0) mesh))
        (Vec3.sub (ops.vertex (f.edgeVertex 2) mesh) (ops.vertex (f.edgeVertex 1) mesh))
        = Vec3.zero →
      normal ops normalize f mesh = .ok (normalize Vec3.zero)) := by
  refine ⟨rfl, ?_, ?_, ?_⟩
  · intro e h
    simp [normal] at h
  · intro a b c rest h
    obtain ⟨fin, e0, r⟩ := f
    rcases r with _ | ⟨e1, _ | ⟨e2, r⟩⟩ <;>
      simp [adjacentVertices, adjacentEdges] at h
    obtain ⟨ha, hb, hc, _⟩ := h
    have h1 : 1 % (r.length + 1 + 1 + 1) = 1 := Nat.mod_eq_of_lt (by omega)
    have h2 : 2 % (r.length + 1 + 1 + 1) = 2 := Nat.mod_eq_of_lt (by omega)
    simp [normal, edgeVertex, adjacentEdges, ha, hb, hc, h1, h2]
  · intro h
    simp only [normal, h]

/-- C10 at the example triangle, all of whose vertices sit at the origin. -/
theorem C10_normal_total_witness :
    normal journalVertexOps id (exTriangle 0 0 0) []
      = .ok (id (Vec3.cross
          (Vec3.sub (journalVertexOps.vertex (exVertex 1 0) [])
            (journalVertexOps.vertex (exVertex 0 0) []))
          (Vec3.sub (journalVertexOps.vertex (exVertex 2 0) [])
            (journalVertexOps.vertex (exVertex 1 0) [])))) :=
  (C10_normal_total journalVertexOps id (exTriangle 0 0 0) []).2.2.1 (exVertex 0 0)
    (exVertex 1 0) (exVertex 2 0) [] (by decide)

/-- C10 as stated fails: the example triangle with all vertices at the origin is
degenerate (the cross product of its edge vectors is the zero vector), and
`normal` returns a vector for it instead of stopping on a fault. -/
theorem C10_counterexample :
    Vec3.cross
        (Vec3.sub (journalVertexOps.vertex ((exTriangle 0 0 0).edgeVertex 1) [])
          (journalVertexOps.vertex ((exTriangle 0 0 0).edgeVertex 0) []))
        (Vec3.sub (journalVertexOps.vertex ((exTriangle 0 0 0).edgeVertex 2) [])
          (journalVertexOps.vertex ((exTriangle 0 0 0).edgeVertex 1) [])) = Vec3.zero ∧
    normal journalVertexOps id (exTriangle 0 0 0) [] = .ok Vec3.zero := by
  constructor <;> simp [normal, journalVertexOps, Vec3.cross, Vec3.sub, Vec3.zero]

theorem adjacentLoop_spec (v : WingedVertex) (es : List WingedEdge) :
    (adjacentLoop v es = .error Fault.noAdjacentEdge ↔ ∀ e ∈ es, e.isAdjacent v = false) ∧
    (∀ e, adjacentLoop v es = .ok e ↔
      ∃ pre post, es = pre ++ e :: post ∧ (∀ x ∈ pre, x.isAdjacent v = false) ∧
        e.isAdjacent v = true) := by
  induction es with
  | nil => simp [adjacentLoop]
  | cons x xs ih =>
    obtain ⟨ih1, ih2⟩ := ih
    by_cases hx : x.isAdjacent v = true
    · refine ⟨?_, fun e => ?_⟩
      · simp [adjacentLoop, hx]
      · simp only [adjacentLoop, hx, if_true]
        constructor
        · intro h
          injection h with h
          subst h
          exact ⟨[], xs, rfl, by simp, hx⟩
        · rintro ⟨pre, post, heq, hpre, he⟩
          cases pre with
          | nil =>
            simp only [List.nil_append, List.cons.injEq] at heq
            rw [heq.1]
          | cons p ps =>
            simp only [List.cons_append, List.cons.injEq] at heq
            have := hpre p (List.mem_cons_self _ _)
            rw [← heq.1, hx] at this
            exact absurd this (by simp)
    · have hx' : x.isAdjacent v = false := by simpa using hx
      refine ⟨?_, fun e => ?_⟩
      · simp only [adjacentLoop, hx', Bool.false_eq_true, if_false, ih1]
        simp [hx']
      · simp only [adjacentLoop, hx', Bool.false_eq_true, if_false, ih2]
        constructor
        · rintro ⟨pre, post, heq, hpre, he⟩
          refine ⟨x :: pre, post, by simp [heq], ?_, he⟩
          intro y hy
          rcases List.mem_cons.1 hy with rfl | hy
          · exact hx'
          · exact hpre y hy
        · rintro ⟨pre, post, heq, hpre, he⟩
          cases pre with
          | nil =>
            simp only [List.nil_append, List.cons.injEq] at heq
            rw [← heq.1, hx'] at he
            exact absurd he (by simp)
          | cons p ps =>
            simp only [List.cons_append, List.cons.injEq] at heq
            exact ⟨ps, post, heq.2, fun y hy => hpre y (List.mem_cons_of_mem _ hy), he⟩

/-- C11: `adjacent (vertex)` returns the first edge of the boundary traversal
that is incident to the vertex when there is one, stops on its assertion if and
only if no boundary edge is incident to the vertex, and returns boundary edges
only. -/
theorem C11_adjacent (f : WingedFace) (v : WingedVertex) :
    (∀ e, adjacent f v = .ok e ↔
      ∃ pre post, f.adjacentEdges = pre ++ e :: post ∧
        (∀ x ∈ pre, x.isAdjacent v = false) ∧ e.isAdjacent v = true) ∧
    (adjacent f v = .error Fault.noAdjacentEdge ↔
      ∀ e ∈ f.adjacentEdges, e.isAdjacent v = false) ∧
    ((∃ e ∈ f.adjacentEdges, e.isAdjacent v = true) → ∃ e, adjacent f v = .ok e) ∧
    (∀ e, adjacent f v = .ok e → e ∈ f.adjacentEdges) := by
  obtain ⟨h1, h2⟩ := adjacentLoop_spec v f.adjacentEdges
  refine ⟨h2, h1, ?_, ?_⟩
  · rintro ⟨e, he, hadj⟩
    cases h : adjacent f v with
    | ok r => exact ⟨r, rfl⟩
    | error x =>
      cases x with
      | isTriangle =>
        exfalso
        have key : ∀ es, adjacentLoop v es ≠ .error Fault.isTriangle := by
          intro es
          induction es with
          | nil => simp [adjacentLoop]
          | cons y ys ih =>
            simp only [adjacentLoop]
            split_ifs
            · simp
            · exact ih
        exact key _ h
      | noAdjacentEdge =>
        have := (h1.1 h) e he
        rw [hadj] at this
        exact absurd this (by simp)
  · intro e he
    obtain ⟨pre, post, heq, _, _⟩ := (h2 e).1 he
    rw [heq]
    simp

theorem longestEdgeLoop_spec (length : WingedEdge → M → ℚ) (mesh : M) (e0 : WingedEdge)
    (es pre : List WingedEdge) (longest : WingedEdge) (m : ℚ)
    (hinv : (m = 0 ∧ longest = e0 ∧ ∀ x ∈ pre, length x mesh ≤ 0) ∨
      (0 < m ∧ m = length longest mesh ∧ ∃ p1 p2, pre = p1 ++ longest :: p2 ∧
        (∀ x ∈ p1, length x mesh < m) ∧ ∀ x ∈ p2, length x mesh ≤ m)) :
    (longestEdgeLoop length mesh es longest m = e0 ∧ ∀ x ∈ pre ++ es, length x mesh ≤ 0) ∨
    (0 < length (longestEdgeLoop length mesh es longest m) mesh ∧
      ∃ p1 p2, pre ++ es = p1 ++ longestEdgeLoop length mesh es longest m :: p2 ∧
        (∀ x ∈ p1, length x mesh < length (longestEdgeLoop length mesh es longest m) mesh) ∧
        ∀ x ∈ p2, length x mesh ≤ length (longestEdgeLoop length mesh es longest m) mesh) := by
  induction es generalizing pre longest m with
  | nil =>
    simp only [longestEdgeLoop, List.append_nil]
    rcases hinv with ⟨_, h2, h3⟩ | ⟨h1, h2, p1, p2, h3, h4, h5⟩
    · exact Or.inl ⟨h2, h3⟩
    · exact Or.inr ⟨h2 ▸ h1, p1, p2, h3, fun x hx => h2 ▸ h4 x hx, fun x hx => h2 ▸ h5 x hx⟩
  | cons e es ih =>
    have happ : pre ++ e :: es = (pre ++ [e]) ++ es := by simp
    by_cases hgt : length e mesh > m
    · have hstep : longestEdgeLoop length mesh (e :: es) longest m
          = longestEdgeLoop length mesh es e (length e mesh) := by
        simp [longestEdgeLoop, hgt]
      rw [hstep, happ]
      apply ih
      right
      have hm0 : 0 ≤ m := by
        rcases hinv with ⟨h, _, _⟩ | ⟨h, _, _⟩
        · exact h.ge
        · exact h.le
      refine ⟨lt_of_le_of_lt hm0 hgt, rfl, pre, [], rfl, ?_, by simp⟩
      intro x hx
      rcases hinv with ⟨h1, _, h3⟩ | ⟨_, h2, p1, p2, h3, h4, h5⟩
      · exact lt_of_le_of_lt (h1 ▸ h3 x hx) hgt
      · subst h3
        rcases List.mem_append.1 hx with hx | hx
        · exact lt_trans (h4 x hx) hgt
        · rcases List.mem_cons.1 hx with rfl | hx
          · exact h2 ▸ hgt
          · exact lt_of_le_of_lt (h5 x hx) hgt
    · have hle : length e mesh ≤ m := not_lt.1 hgt
      have hstep : longestEdgeLoop length mesh (e :: es) longest m
          = longestEdgeLoop length mesh es longest m := by
        simp [longestEdgeLoop, hgt]
      rw [hstep, happ]
      apply ih
      rcases hinv with ⟨h1, h2, h3⟩ | ⟨h1, h2, p1, p2, h3, h4, h5⟩
      · left
        refine ⟨h1, h2, ?_⟩
        intro x hx
        rcases List.mem_append.1 hx with hx | hx
        · exact h3 x hx
        · simp only [List.mem_singleton] at hx
          subst hx
          exact h1 ▸ hle
      · right
        refine ⟨h1, h2, p1, p2 ++ [e], by simp [h3], h4, ?_⟩
        intro x hx
        rcases List.mem_append.1 hx with hx | hx
        · exact h5 x hx
        · simp only [List.mem_singleton] at hx
          subst hx
          exact hle

/-- C13: with edge lengths that are not negative, `longestEdge` returns a boundary
edge at least as long as every boundary edge, the first such edge of the
traversal (every edge before it is strictly shorter), and the reference edge
when all boundary edges have length 0. -/
theorem C13_longestEdge (length : WingedEdge → M → ℚ) (f : WingedFace) (mesh : M)
    (hnn : ∀ e ∈ f.adjacentEdges, 0 ≤ length e mesh) :
    longestEdge length f mesh ∈ f.adjacentEdges ∧
    (∀ e ∈ f.adjacentEdges, length e mesh ≤ length (longestEdge length f mesh) mesh) ∧
    (∃ p1 p2, f.adjacentEdges = p1 ++ longestEdge length f mesh :: p2 ∧
      ∀ x ∈ p1, length x mesh < length (longestEdge length f mesh) mesh) ∧
    ((∀ e ∈ f.adjacentEdges, length e mesh = 0) → longestEdge length f mesh = f.edge) := by
  have h := longestEdgeLoop_spec length mesh f.edge f.adjacentEdges [] f.edge 0
    (Or.inl ⟨rfl, rfl, by simp⟩)
  simp only [List.nil_append] at h
  change (longestEdge length f mesh = f.edge ∧ _) ∨
    (0 < length (longestEdge length f mesh) mesh ∧
      ∃ p1 p2, f.adjacentEdges = p1 ++ longestEdge length f mesh :: p2 ∧
        (∀ x ∈ p1, length x mesh < length (longestEdge length f mesh) mesh) ∧
        ∀ x ∈ p2, length x mesh ≤ length (longestEdge length f mesh) mesh) at h
  rcases h with ⟨h1, h2⟩ | ⟨h1, p1, p2, h3, h4, h5⟩
  · have hmem : f.edge ∈ f.adjacentEdges := List.mem_cons_self _ _
    refine ⟨h1 ▸ hmem, ?_, ⟨[], f.rest, by rw [h1]; rfl, by simp⟩, fun _ => h1⟩
    intro e he
    rw [h1]
    exact le_trans (h2 e he) (hnn f.edge hmem)
  · refine ⟨by rw [h3]; simp, ?_, ⟨p1, p2, h3, h4⟩, ?_⟩
    · intro e he
      rw [h3] at he
      rcases List.mem_append.1 he with he | he
      · exact (h4 e he).le
      · rcases List.mem_cons.1 he with he | he
        · rw [he]
        · exact h5 e he
    · intro hall
      have : length (longestEdge length f mesh) mesh = 0 := hall _ (by rw [h3]; simp)
      rw [this] at h1
      exact absurd h1 (lt_irrefl _)

/-- C13 at the example triangle, whose edges 0, 1, 2 have the lengths 0, 1, 2. -/
theorem C13_longestEdge_witness :
    longestEdge exLength (exTriangle 0 0 0) [] ∈ (exTriangle 0 0 0).adjacentEdges ∧
    (∀ e ∈ (exTriangle 0 0 0).adjacentEdges,
      exLength e [] ≤ exLength (longestEdge exLength (exTriangle 0 0 0) []) []) :=
  have h := C13_longestEdge exLength (exTriangle 0 0 0) [] (by
    intro e _
    simp [exLength])
  ⟨h.1, h.2.1⟩

/-- The recursion of `levelMin` on a face without T-edge whose vertex levels are
below `UINT_MAX`: started with more fuel than there are vertices at or above the
threshold, it returns, after at most one call more than there are such
vertices, and the thresholds of its calls increase strictly. -/
theorem levelMin_calls (f : WingedFace)
    (hT : ∀ e ∈ f.adjacentEdges, e.isTEdge = false)
    (hb : ∀ v ∈ f.adjacentVertices, v.level < UINT_MAX)
    (hlen : f.adjacentEdges.length < UINT_MOD)
    (fuel min : Nat)
    (hfuel : f.adjacentVertices.countP (fun v => decide (min ≤ v.level)) < fuel) :
    (∃ r, levelMin f fuel min = some r) ∧
    (levelMinCalls f fuel min).length
      ≤ f.adjacentVertices.countP (fun v => decide (min ≤ v.level)) + 1 ∧
    (levelMinCalls f fuel min).Pairwise (fun a b => a < b) ∧
    ∀ t ∈ levelMinCalls f fuel min, min ≤ t := by
  induction fuel generalizing min with
  | zero => omega
  | succ fuel ih =>
    obtain ⟨l, hl, _, hmem, _⟩ := levelMinEdges_scanned min f.adjacentEdges UINT_MAX hT
    have hcnt := levelCount_face f l hlen
    by_cases hone : levelCount l f.adjacentVertices 0 = 1
    · have hpos : 0 < f.adjacentVertices.countP (fun v => decide (v.level = l)) := by omega
      obtain ⟨v, hv, hp⟩ := List.countP_pos_iff.1 hpos
      have hvl : v.level = l := by simpa using hp
      have hlU : l < UINT_MAX := hvl ▸ hb v hv
      have hml : min ≤ l := by
        rcases hmem with h | ⟨_, _, _, h⟩
        · omega
        · exact h
      have hmod : (l + 1) % UINT_MOD = l + 1 := by
        apply Nat.mod_eq_of_lt
        unfold UINT_MAX at hlU
        unfold UINT_MOD
        omega
      have hdrop : f.adjacentVertices.countP (fun v => decide (l + 1 ≤ v.level))
          < f.adjacentVertices.countP (fun v => decide (min ≤ v.level)) := by
        apply countP_lt_countP _ _ _ _ v hv
        · simp only [decide_eq_true_eq]
          omega
        · simp only [decide_eq_false_iff_not]
          omega
        · intro x _ hx
          simp only [decide_eq_true_eq] at hx ⊢
          omega
      obtain ⟨⟨r, hr⟩, h2, h3, h4⟩ := ih (l + 1) (by omega)
      have hcalls : levelMinCalls f (fuel + 1) min = min :: levelMinCalls f fuel (l + 1) := by
        simp [levelMinCalls, hl, hone, hmod]
      refine ⟨⟨r, by simp [levelMin, hl, hone, hmod, hr]⟩, ?_, ?_, ?_⟩
      · rw [hcalls, List.length_cons]
        omega
      · rw [hcalls, List.pairwise_cons]
        refine ⟨fun t ht => ?_, h3⟩
        have := h4 t ht
        omega
      · rw [hcalls]
        intro t ht
        rcases List.mem_cons.1 ht with rfl | ht
        · exact le_refl _
        · have := h4 t ht
          omega
    · have hcalls : levelMinCalls f (fuel + 1) min = [min] := by
        simp [levelMinCalls, hl, hone]
      refine ⟨⟨l, by simp [levelMin, hl, hone]⟩, ?_, ?_, ?_⟩
      · rw [hcalls]
        simp
      · rw [hcalls]
        simp
      · rw [hcalls]
        simp

/-- C15: on a face with `k` boundary vertices, no T-edge and all vertex levels
below `UINT_MAX`, `level` returns after at most `k + 1` calls of `levelMin` (so
with any fuel from `k + 1` on), and every call has a strictly larger threshold
than the calls before it. -/
theorem C15_level_terminates (f : WingedFace) (n : Nat)
    (hT : f.firstTEdge = none)
    (hb : ∀ v ∈ f.adjacentVertices, v.level < UINT_MAX)
    (hlen : f.adjacentEdges.length < UINT_MOD) :
    (∃ r, level f (f.adjacentVertices.length + 1 + n) = some r) ∧
    (levelMinCalls f (f.adjacentVertices.length + 1 + n) 0).length
      ≤ f.adjacentVertices.length + 1 ∧
    (levelMinCalls f (f.adjacentVertices.length + 1 + n) 0).Pairwise (fun a b => a < b) := by
  have hc : f.adjacentVertices.countP (fun v => decide (0 ≤ v.level))
      ≤ f.adjacentVertices.length := List.countP_le_length _
  obtain ⟨h1, h2, h3, _⟩ := levelMin_calls f (noTEdge_of_firstTEdge f hT) hb hlen
    (f.adjacentVertices.length + 1 + n) 0 (by omega)
  exact ⟨h1, by omega, h3⟩

/-- C15 at the example triangle with the vertex levels 0, 1, 2: four calls, with
the thresholds 0, 1, 2, 3. -/
theorem C15_level_terminates_witness :
    (∃ r, level (exTriangle 0 1 2) ((exTriangle 0 1 2).adjacentVertices.length + 1 + 0)
      = some r) ∧
    (levelMinCalls (exTriangle 0 1 2) ((exTriangle 0 1 2).adjacentVertices.length + 1 + 0)
      0).length ≤ (exTriangle 0 1 2).adjacentVertices.length + 1 ∧
    (levelMinCalls (exTriangle 0 1 2) ((exTriangle 0 1 2).adjacentVertices.length + 1 + 0)
      0).Pairwise (fun a b => a < b) :=
  C15_level_terminates (exTriangle 0 1 2) 0 (by decide) (by decide) (by decide)

/-- C16: on a triangular face without T-edge, whose edge end points are its
boundary vertices `x`, `y`, `z` and whose levels are `unsigned int` values, if at
least two of the three vertices have the level `a` then `level` returns `a`,
after at most two calls of `levelMin`, whatever the level of the third vertex. -/
theorem C16_level_two_equal (f : WingedFace) (x y z : WingedVertex) (a fuel : Nat)
    (hv : f.adjacentVertices = [x, y, z]) (hT : f.firstTEdge = none)
    (hwf : ∀ e ∈ f.adjacentEdges, e.vertex1 ∈ f.adjacentVertices ∧ e.vertex2 ∈ f.adjacentVertices)
    (hb : ∀ v ∈ f.adjacentVertices, v.level ≤ UINT_MAX)
    (hshare : (x.level = a ∧ y.level = a) ∨ (y.level = a ∧ z.level = a) ∨
      (x.level = a ∧ z.level = a)) :
    level f (fuel + 2) = some a := by
  have hvlen : f.adjacentVertices.length = 3 := by rw [hv]; rfl
  have h3 : f.adjacentEdges.length = 3 := by
    simpa [adjacentVertices] using hvlen
  have hlen : f.adjacentEdges.length < UINT_MOD := by rw [h3]; decide
  have ha : 2 ≤ f.adjacentVertices.countP (fun v => decide (v.level = a)) := by
    rw [hv]
    simp only [List.countP_cons, List.countP_nil, decide_eq_true_eq]
    rcases hshare with ⟨h1, h2⟩ | ⟨h1, h2⟩ | ⟨h1, h2⟩ <;> simp [h1, h2]
  have hamin : ∀ b, b < a → f.adjacentVertices.countP (fun v => decide (v.level = b)) ≤ 1 := by
    intro b hba
    have := countP_add_countP_le (fun v : WingedVertex => decide (v.level = a))
      (fun v => decide (v.level = b)) f.adjacentVertices (by
        intro x _ hx
        simp only [decide_eq_true_eq, decide_eq_false_iff_not] at hx ⊢
        omega)
    omega
  have hfuel : f.adjacentVertices.countP
      (fun v => decide (0 ≤ v.level) && decide (v.level < a)) < fuel + 2 := by
    have := countP_add_countP_le (fun v : WingedVertex => decide (v.level = a))
      (fun v => decide (0 ≤ v.level) && decide (v.level < a)) f.adjacentVertices (by
        intro x _ hx
        simp only [decide_eq_true_eq, Bool.and_eq_false_iff, decide_eq_false_iff_not] at hx ⊢
        omega)
    omega
  exact (levelMin_shared f a (noTEdge_of_firstTEdge f hT) hwf hb hlen ha hamin (fuel + 2) 0
    (Nat.zero_le _) hfuel).1

/-- C16 at example triangles whose third vertex is lower than, equal to and higher
than the shared level 4. -/
theorem C16_level_two_equal_witness :
    level (exTriangle 4 1 4) 2 = some 4 ∧ level (exTriangle 4 4 4) 2 = some 4 ∧
    level (exTriangle 9 4 4) 2 = some 4 :=
  ⟨C16_level_two_equal (exTriangle 4 1 4) (exVertex 0 4) (exVertex 1 1) (exVertex 2 4) 4 0
      (by decide) (by decide) (by decide) (by decide) (by decide),
   C16_level_two_equal (exTriangle 4 4 4) (exVertex 0 4) (exVertex 1 4) (exVertex 2 4) 4 0
      (by decide) (by decide) (by decide) (by decide) (by decide),
   C16_level_two_equal (exTriangle 9 4 4) (exVertex 0 9) (exVertex 1 4) (exVertex 2 4) 4 0
      (by decide) (by decide) (by decide) (by decide) (by decide)⟩

/-- C17: the vector `cross (p2 - p1, p3 - p2)` equals `cross (p2 - p1, p3 - p1)`,
is the same for the three cyclic rotations of `(p1, p2, p3)` and is negated when
two of the points are swapped. On the triangle with the boundary edges `e0`,
`e1`, `e2`, whose vertices sit at `q1`, `q2`, `q3`, `normal` is `normalize` of
`cross (q2 - q1, q3 - q2)`; it is the same whichever of the three edges is the
reference edge, and on the triangle traversed the other way round, `e0`, `e2`,
`e1`, it is `normalize` of the negated vector. -/
theorem C17_normal_winding (ops : VertexOps M) (normalize : Vec3 → Vec3) (mesh : M)
    (p1 p2 p3 : Vec3) (e0 e1 e2 : WingedEdge) (n0 n1 n2 : Nat) :
    Vec3.cross (Vec3.sub p2 p1) (Vec3.sub p3 p2) = Vec3.cross (Vec3.sub p2 p1) (Vec3.sub p3 p1) ∧
    Vec3.cross (Vec3.sub p3 p2) (Vec3.sub p1 p3) = Vec3.cross (Vec3.sub p2 p1) (Vec3.sub p3 p2) ∧
    Vec3.cross (Vec3.sub p1 p3) (Vec3.sub p2 p1) = Vec3.cross (Vec3.sub p2 p1) (Vec3.sub p3 p2) ∧
    Vec3.cross (Vec3.sub p1 p2) (Vec3.sub p3 p1)
      = Vec3.neg (Vec3.cross (Vec3.sub p2 p1) (Vec3.sub p3 p2)) ∧
    Vec3.cross (Vec3.sub p3 p1) (Vec3.sub p2 p3)
      = Vec3.neg (Vec3.cross (Vec3.sub p2 p1) (Vec3.sub p3 p2)) ∧
    Vec3.cross (Vec3.sub p2 p3) (Vec3.sub p1 p2)
      = Vec3.neg (Vec3.cross (Vec3.sub p2 p1) (Vec3.sub p3 p2)) ∧
    normal ops normalize ⟨n0, e0, [e1, e2]⟩ mesh
      = .ok (normalize (Vec3.cross
          (Vec3.sub (ops.vertex e1.firstVertexRef mesh) (ops.vertex e0.firstVertexRef mesh))
          (Vec3.sub (ops.vertex e2.firstVertexRef mesh) (ops.vertex e1.firstVertexRef mesh)))) ∧
    normal ops normalize ⟨n1, e1, [e2, e0]⟩ mesh = normal ops normalize ⟨n0, e0, [e1, e2]⟩ mesh ∧
    normal ops normalize ⟨n2, e2, [e0, e1]⟩ mesh = normal ops normalize ⟨n0, e0, [e1, e2]⟩ mesh ∧
    normal ops normalize ⟨n0, e0, [e2, e1]⟩ mesh
      = .ok (normalize (Vec3.neg (Vec3.cross
          (Vec3.sub (ops.vertex e1.firstVertexRef mesh) (ops.vertex e0.firstVertexRef mesh))
          (Vec3.sub (ops.vertex e2.firstVertexRef mesh)
            (ops.vertex e1.firstVertexRef mesh))))) := by
  have rot : ∀ a b c : Vec3,
      Vec3.cross (Vec3.sub c b) (Vec3.sub a c) = Vec3.cross (Vec3.sub b a) (Vec3.sub c b) := by
    intro a b c
    simp only [Vec3.cross, Vec3.sub, Vec3.mk.injEq]
    refine ⟨by ring, by ring, by ring⟩
  have swap : ∀ a b c : Vec3,
      Vec3.cross (Vec3.sub c a) (Vec3.sub b c)
        = Vec3.neg (Vec3.cross (Vec3.sub b a) (Vec3.sub c b)) := by
    intro a b c
    simp only [Vec3.cross, Vec3.sub, Vec3.neg, Vec3.mk.injEq]
    refine ⟨by ring, by ring, by ring⟩
  refine ⟨?_, rot p1 p2 p3, ?_, ?_, swap p1 p2 p3, ?_, ?_, ?_, ?_, ?_⟩
  · simp only [Vec3.cross, Vec3.sub, Vec3.mk.injEq]
    refine ⟨by ring, by ring, by ring⟩
  · simp only [Vec3.cross, Vec3.sub, Vec3.mk.injEq]
    refine ⟨by ring, by ring, by ring⟩
  · simp only [Vec3.cross, Vec3.sub, Vec3.neg, Vec3.mk.injEq]
    refine ⟨by ring, by ring, by ring⟩
  · simp only [Vec3.cross, Vec3.sub, Vec3.neg, Vec3.mk.injEq]
    refine ⟨by ring, by ring, by ring⟩
  · simp [normal, edgeVertex, adjacentEdges]
  · have h := rot (ops.vertex e0.firstVertexRef mesh) (ops.vertex e1.firstVertexRef mesh)
      (ops.vertex e2.firstVertexRef mesh)
    simp [normal, edgeVertex, adjacentEdges, h]
  · have h := rot (ops.vertex e2.firstVertexRef mesh) (ops.vertex e0.firstVertexRef mesh)
      (ops.vertex e1.firstVertexRef mesh)
    simp [normal, edgeVertex, adjacentEdges, h]
  · have h := swap (ops.vertex e0.firstVertexRef mesh) (ops.vertex e1.firstVertexRef mesh)
      (ops.vertex e2.firstVertexRef mesh)
    simp [normal, edgeVertex, adjacentEdges, h]

/-- C18: on a triangular face with the vertex traversal `a`, `b`, `c`,
`writeIndices` writes the index numbers `n`, `n + 1`, `n + 2` (counted in
`unsigned int`, so modulo `2 ^ 32`) for `a`, `b`, `c` in this order, where `n` is
`newFIN` when one is given, which is then stored as first index number, and
otherwise the stored first index number, which stays as it is. -/
theorem C18_writeIndices (ops : VertexOps M) (f : WingedFace) (mesh : M) (a b c : WingedVertex)
    (h : f.adjacentVertices = [a, b, c]) :
    (∀ n, writeIndices ops f mesh (some n)
      = ⟨({ f with firstIndexNumber := n },
          ops.writeIndex c (ops.writeIndex b (ops.writeIndex a mesh n) ((n + 1) % UINT_MOD))
            ((n + 2) % UINT_MOD)), none⟩) ∧
    writeIndices ops f mesh none
      = ⟨(f, ops.writeIndex c
          (ops.writeIndex b (ops.writeIndex a mesh f.firstIndexNumber)
            ((f.firstIndexNumber + 1) % UINT_MOD))
          ((f.firstIndexNumber + 2) % UINT_MOD)), none⟩ ∧
    (∀ n, n + 2 < UINT_MOD → (n + 1) % UINT_MOD = n + 1 ∧ (n + 2) % UINT_MOD = n + 2) := by
  have hmod : ∀ n, ((n + 1) % UINT_MOD + 1) % UINT_MOD = (n + 2) % UINT_MOD := by
    intro n
    simp only [UINT_MOD]
    omega
  obtain ⟨fin, e0, rest⟩ := f
  rcases rest with _ | ⟨e1, _ | ⟨e2, _ | ⟨e3, r⟩⟩⟩ <;>
    simp [adjacentVertices, adjacentEdges] at h
  obtain ⟨ha, hb, hc⟩ := h
  have ht : ∀ n, isTriangle ⟨n, e0, [e1, e2]⟩ = true := fun n => by
    simp [isTriangle, numEdges, adjacentEdges, UINT_MOD]
  refine ⟨fun n => ?_, ?_, fun n hn => ?_⟩
  · simp only [writeIndices, ht, if_true, adjacentVertices, adjacentEdges, List.map_cons,
      List.map_nil, writeIndicesLoop, hmod, ha, hb, hc]
  · simp only [writeIndices, ht, if_true, adjacentVertices, adjacentEdges, List.map_cons,
      List.map_nil, writeIndicesLoop, hmod, ha, hb, hc]
  · exact ⟨Nat.mod_eq_of_lt (by omega), Nat.mod_eq_of_lt hn⟩

/-- C18 at the example triangle, with the new first index number 6 and with
none. -/
theorem C18_writeIndices_witness :
    writeIndices journalVertexOps (exTriangle 0 0 0) [] (some 6)
      = ⟨({ exTriangle 0 0 0 with firstIndexNumber := 6 },
          journalVertexOps.writeIndex (exVertex 2 0)
            (journalVertexOps.writeIndex (exVertex 1 0)
              (journalVertexOps.writeIndex (exVertex 0 0) [] 6) ((6 + 1) % UINT_MOD))
            ((6 + 2) % UINT_MOD)), none⟩ :=
  (C18_writeIndices journalVertexOps (exTriangle 0 0 0) [] (exVertex 0 0) (exVertex 1 0)
    (exVertex 2 0) (by decide)).1 6

end WingedFace

/-! ## Theorems about the carve action -/

namespace AffectedFaces

theorem Le.refl (d : AffectedFaces) : d.Le d := ⟨fun _ h => h, fun _ h => h⟩

theorem Le.trans {a b c : AffectedFaces} (h1 : a.Le b) (h2 : b.Le c) : a.Le c :=
  ⟨fun f h => h2.1 f (h1.1 f h), fun f h => h2.2 f (h1.2 f h)⟩

theorem le_insert (d : AffectedFaces) (f : Nat) : d.Le (d.insert f) := by
  refine ⟨fun _ h => h, fun g h => ?_⟩
  rcases h with h | h
  · exact Or.inl h
  · exact Or.inr (by simp [insert, h])

theorem le_insertAll (d other : AffectedFaces) : d.Le (d.insertAll other) := by
  refine ⟨fun _ h => h, fun g h => ?_⟩
  rcases h with h | h
  · exact Or.inl h
  · exact Or.inr (by simp [insertAll, h])

theorem mem_commit (d : AffectedFaces) (f : Nat) : Mem f d.commit ↔ Mem f d := by
  unfold Mem commit
  by_cases hf : f ∈ d.faces <;> simp [hf]

theorem le_commit (d : AffectedFaces) : d.Le d.commit :=
  ⟨fun f h => by simp [commit, h], fun f h => (mem_commit d f).2 h⟩

theorem le_of_onlyInserts {d1 d2 : AffectedFaces} (h : OnlyInserts d1 d2) : d1.Le d2 := by
  obtain ⟨fs, rfl⟩ := h
  induction fs generalizing d1 with
  | nil => exact Le.refl _
  | cons f fs ih => exact Le.trans (le_insert d1 f) ih

theorem mem_insertAll_empty (d : AffectedFaces) (f : Nat) :
    Mem f (d.insertAll empty) ↔ Mem f d := by
  simp [Mem, insertAll, empty]

end AffectedFaces

namespace ActionCarve

variable {M : Type}

theorem relaxLoop_eq (ops : CarveOps M) (es : List Nat) (s : CarveState M)
    (d : AffectedFaces) :
    (relaxLoop ops es s d).1.actions = s.actions ++ es.map Record.relaxEdge ∧
    (relaxLoop ops es s d).1.calls = s.calls ++ es.map Call.relaxEdge := by
  induction es generalizing s d with
  | nil => simp [relaxLoop]
  | cons e es ih =>
    obtain ⟨h1, h2⟩ := ih
      ⟨(ops.relaxEdge s.mesh e d).1, s.actions ++ [Record.relaxEdge e],
        s.calls ++ [Call.relaxEdge e]⟩ (ops.relaxEdge s.mesh e d).2
    simp only [relaxLoop]
    rw [h1, h2]
    simp

theorem relaxLoop_le (ops : CarveOps M)
    (hrelax : ∀ m e d, AffectedFaces.OnlyInserts d (ops.relaxEdge m e d).2)
    (es : List Nat) (s : CarveState M) (d : AffectedFaces) :
    d.Le (relaxLoop ops es s d).2 := by
  induction es generalizing s d with
  | nil => exact AffectedFaces.Le.refl _
  | cons e es ih =>
    simp only [relaxLoop]
    exact AffectedFaces.Le.trans (AffectedFaces.le_of_onlyInserts (hrelax s.mesh e d)) (ih _ _)

theorem writeNormalsLoop_eq (ops : CarveOps M) (vs : List Nat) (s : CarveState M) :
    (writeNormalsLoop ops vs s).actions = s.actions ++ vs.map Record.writeInterpolatedNormal ∧
    (writeNormalsLoop ops vs s).calls = s.calls ++ vs.map Call.writeInterpolatedNormal := by
  induction vs generalizing s with
  | nil => simp [writeNormalsLoop]
  | cons v vs ih =>
    obtain ⟨h1, h2⟩ := ih
      ⟨ops.writeInterpolatedNormal s.mesh v, s.actions ++ [Record.writeInterpolatedNormal v],
        s.calls ++ [Call.writeInterpolatedNormal v]⟩
    simp only [writeNormalsLoop]
    rw [h1, h2]
    simp

theorem realignLoop_eq (ops : CarveOps M) (fs : List Nat) (s : CarveState M) :
    (realignLoop ops fs s).actions = s.actions ∧
    (realignLoop ops fs s).calls = s.calls ++ fs.map Call.realignFace := by
  induction fs generalizing s with
  | nil => simp [realignLoop]
  | cons f fs ih =>
    obtain ⟨h1, h2⟩ := ih ⟨ops.realignFace s.mesh f, s.actions, s.calls ++ [Call.realignFace f]⟩
    simp only [realignLoop]
    rw [h1, h2]
    simp

/-- The loop of the subdivide step appends, for a sublist `S` of the edges it runs
through, one subdivide-edge record per edge and, on the mesh, the run of that
record followed by one direct `writeNormal`. -/
theorem subdivideLoop_spec (ops : CarveOps M) (q : ℚ) (es : List Nat) (s : CarveState M)
    (af : AffectedFaces) :
    ∃ S : List (Nat × Nat × Vec3),
      (subdivideLoop ops q es s af).1.actions
        = s.actions ++ S.map (fun t => Record.subdivideEdge t.1) ∧
      (subdivideLoop ops q es s af).1.calls
        = s.calls ++ S.flatMap (fun t => [Call.subdivideEdge t.1, Call.writeNormal t.2.1 t.2.2]) ∧
      (S.map (fun t => t.1)).Sublist es := by
  induction es generalizing s af with
  | nil => exact ⟨[], by simp [subdivideLoop]⟩
  | cons e es ih =>
    by_cases h : isSubdividable ops s.mesh q e = true
    · obtain ⟨S, h1, h2, h3⟩ := ih
        ⟨ops.writeNormal (ops.subdivideEdge s.mesh e af).1
            (ops.vertex1 (ops.subdivideEdge s.mesh e af).1 e)
            (ops.interpolatedNormal (ops.subdivideEdge s.mesh e af).1
              (ops.vertex1 (ops.subdivideEdge s.mesh e af).1 e)),
          s.actions ++ [Record.subdivideEdge e],
          s.calls ++ [Call.subdivideEdge e,
            Call.writeNormal (ops.vertex1 (ops.subdivideEdge s.mesh e af).1 e)
              (ops.interpolatedNormal (ops.subdivideEdge s.mesh e af).1
                (ops.vertex1 (ops.subdivideEdge s.mesh e af).1 e))]⟩
        (ops.subdivideEdge s.mesh e af).2
      refine ⟨(e, ops.vertex1 (ops.subdivideEdge s.mesh e af).1 e,
        ops.interpolatedNormal (ops.subdivideEdge s.mesh e af).1
          (ops.vertex1 (ops.subdivideEdge s.mesh e af).1 e)) :: S, ?_, ?_, ?_⟩
      · simp only [subdivideLoop, h, if_true]
        rw [h1]
        simp
      · simp only [subdivideLoop, h, if_true]
        rw [h2]
        simp
      · simpa using h3
    · obtain ⟨S, h1, h2, h3⟩ := ih s af
      refine ⟨S, ?_, ?_, List.Sublist.cons _ h3⟩
      · simp only [subdivideLoop, h]
        exact h1
      · simp only [subdivideLoop, h]
        exact h2

theorem subdivideLoop_none (ops : CarveOps M) (q : ℚ) (es : List Nat) (s : CarveState M)
    (af : AffectedFaces) (h : ∀ e ∈ es, ¬ q < ops.lengthSqr s.mesh e) :
    subdivideLoop ops q es s af = (s, af) := by
  induction es with
  | nil => rfl
  | cons e es ih =>
    have he : isSubdividable ops s.mesh q e = false := by
      simp [isSubdividable, h e (List.mem_cons_self _ _)]
    simp only [subdivideLoop, he]
    exact ih (fun x hx => h x (List.mem_cons_of_mem _ hx))

/-- The loop of the subdivide step on a list of edges without repetition: the
edges it splits form a sublist `S` of the list, and an edge is in `S` exactly
when its squared length, in the mesh as the loop finds it on reaching the edge,
is above the bound. -/
theorem subdivideLoop_visit (ops : CarveOps M) (q : ℚ) (es : List Nat) (s : CarveState M)
    (af : AffectedFaces) (hnd : es.Nodup) :
    ∃ S : List Nat,
      (subdivideLoop ops q es s af).1.actions = s.actions ++ S.map Record.subdivideEdge ∧
      S.Sublist es ∧
      ∀ pre e post, es = pre ++ e :: post →
        (e ∈ S ↔ q < ops.lengthSqr (subdivideLoop ops q pre s af).1.mesh e) := by
  induction es generalizing s af with
  | nil =>
    refine ⟨[], by simp [subdivideLoop], List.Sublist.refl _, ?_⟩
    intro pre e post h
    simp at h
  | cons x xs ih =>
    obtain ⟨hx, hnd1⟩ := List.nodup_cons.1 hnd
    by_cases h : q < ops.lengthSqr s.mesh x
    · have he : isSubdividable ops s.mesh q x = true := by simp [isSubdividable, h]
      obtain ⟨S, h1, h2, h3⟩ := ih
        ⟨ops.writeNormal (ops.subdivideEdge s.mesh x af).1
            (ops.vertex1 (ops.subdivideEdge s.mesh x af).1 x)
            (ops.interpolatedNormal (ops.subdivideEdge s.mesh x af).1
              (ops.vertex1 (ops.subdivideEdge s.mesh x af).1 x)),
          s.actions ++ [Record.subdivideEdge x],
          s.calls ++ [Call.subdivideEdge x,
            Call.writeNormal (ops.vertex1 (ops.subdivideEdge s.mesh x af).1 x)
              (ops.interpolatedNormal (ops.subdivideEdge s.mesh x af).1
                (ops.vertex1 (ops.subdivideEdge s.mesh x af).1 x))]⟩
        (ops.subdivideEdge s.mesh x af).2 hnd1
      refine ⟨x :: S, ?_, h2.cons₂ x, ?_⟩
      · simp only [subdivideLoop, he, if_true]
        rw [h1]
        simp
      · intro pre e post hsplit
        rcases pre with _ | ⟨p, pre⟩
        · simp only [List.nil_append, List.cons.injEq] at hsplit
          obtain ⟨hxe, _⟩ := hsplit
          subst hxe
          simp [subdivideLoop, h]
        · simp only [List.cons_append, List.cons.injEq] at hsplit
          obtain ⟨hxp, hxs⟩ := hsplit
          subst hxp
          have hne : e ≠ x := by
            intro heq
            apply hx
            rw [hxs, ← heq]
            simp
          have h4 := h3 pre e post hxs
          simp only [subdivideLoop, he, if_true, List.mem_cons, hne, false_or]
          exact h4
    · have he : isSubdividable ops s.mesh q x = false := by simp [isSubdividable, h]
      obtain ⟨S, h1, h2, h3⟩ := ih s af hnd1
      refine ⟨S, ?_, List.Sublist.cons _ h2, ?_⟩
      · simp only [subdivideLoop, he, Bool.false_eq_true, if_false]
        exact h1
      · intro pre e post hsplit
        rcases pre with _ | ⟨p, pre⟩
        · simp only [List.nil_append, List.cons.injEq] at hsplit
          obtain ⟨hxe, _⟩ := hsplit
          subst hxe
          have hxS : x ∉ S := fun hm => hx (h2.subset hm)
          simp [subdivideLoop, h, hxS]
        · simp only [List.cons_append, List.cons.injEq] at hsplit
          obtain ⟨hxp, hxs⟩ := hsplit
          subst hxp
          have h4 := h3 pre e post hxs
          simp only [subdivideLoop, he, Bool.false_eq_true, if_false]
          exact h4

theorem relax_smooth_spec (ops : CarveOps M) (s : CarveState M) (d t : AffectedFaces) :
    ∃ es vs : List Nat,
      (smoothStep ops (relaxStep ops s d t).1 (relaxStep ops s d t).2 t).1.actions
        = s.actions ++ (es.map Record.relaxEdge ++ [Record.smooth vs]) ∧
      (smoothStep ops (relaxStep ops s d t).1 (relaxStep ops s d t).2 t).1.calls
        = s.calls ++ (es.map Call.relaxEdge ++ [Call.smooth vs]) := by
  refine ⟨ops.edges s.mesh t, ops.toVertexSet (relaxStep ops s d t).1.mesh t, ?_, ?_⟩
  · simp only [smoothStep, relaxStep]
    rw [(relaxLoop_eq ops _ _ _).1]
    simp only [List.append_assoc]
  · simp only [smoothStep, relaxStep]
    rw [(relaxLoop_eq ops _ _ _).2]
    simp only [List.append_assoc]

/-- The records and calls of one subdivide/relax/smooth cycle: subdivide-edge
records for a list `S` of edges, each run followed by one direct `writeNormal`;
then one relax-edge record per edge of `es`; then one smooth record. -/
theorem subdivideEdges_spec (ops : CarveOps M) (brush : CarveBrush) (sphere : PrimSphere)
    (domain : AffectedFaces) (s : CarveState M) :
    ∃ (S : List (Nat × Nat × Vec3)) (es vs : List Nat),
      (subdivideEdges ops brush sphere domain s).1.actions
        = s.actions ++ (S.map (fun t => Record.subdivideEdge t.1) ++
            (es.map Record.relaxEdge ++ [Record.smooth vs])) ∧
      (subdivideEdges ops brush sphere domain s).1.calls
        = s.calls ++ (S.flatMap (fun t => [Call.subdivideEdge t.1, Call.writeNormal t.2.1 t.2.2])
            ++ (es.map Call.relaxEdge ++ [Call.smooth vs])) := by
  obtain ⟨S, h1, h2, _⟩ := subdivideLoop_spec ops (maxLengthSqr brush)
    (ops.edges s.mesh (thisIterationDomain ops sphere s.mesh domain domain)) s AffectedFaces.empty
  obtain ⟨es, vs, h3, h4⟩ := relax_smooth_spec ops
    (subdivideStep ops (maxLengthSqr brush) s domain
      (thisIterationDomain ops sphere s.mesh domain domain)).1
    (subdivideStep ops (maxLengthSqr brush) s domain
      (thisIterationDomain ops sphere s.mesh domain domain)).2.1
    (subdivideStep ops (maxLengthSqr brush) s domain
      (thisIterationDomain ops sphere s.mesh domain domain)).2.2
  have h1a : (subdivideStep ops (maxLengthSqr brush) s domain
      (thisIterationDomain ops sphere s.mesh domain domain)).1.actions
      = s.actions ++ S.map (fun t => Record.subdivideEdge t.1) := h1
  have h2a : (subdivideStep ops (maxLengthSqr brush) s domain
      (thisIterationDomain ops sphere s.mesh domain domain)).1.calls
      = s.calls ++ S.flatMap (fun t => [Call.subdivideEdge t.1, Call.writeNormal t.2.1 t.2.2]) :=
    h2
  rw [h1a] at h3
  rw [h2a] at h4
  refine ⟨S, es, vs, ?_, ?_⟩
  · rw [← List.append_assoc]
    exact h3
  · rw [← List.append_assoc]
    exact h4

theorem finalize_spec (ops : CarveOps M) (domain : AffectedFaces) (s : CarveState M) :
    (finalize ops domain s).1.actions
      = s.actions ++ (ops.toVertexSet s.mesh domain).map Record.writeInterpolatedNormal ∧
    (finalize ops domain s).1.calls
      = s.calls ++ ((ops.toVertexSet s.mesh domain).map Call.writeInterpolatedNormal ++
          domain.faces.map Call.realignFace) := by
  simp only [finalize]
  rw [(realignLoop_eq ops _ _).1, (realignLoop_eq ops _ _).2, (writeNormalsLoop_eq ops _ _).1,
    (writeNormalsLoop_eq ops _ _).2]
  simp

theorem filter_direct_subdivide (S : List (Nat × Nat × Vec3)) :
    (S.flatMap (fun t => [Call.subdivideEdge t.1, Call.writeNormal t.2.1 t.2.2])).filter
        (fun c : Call => !c.isDirectWrite)
      = (S.map (fun t => Record.subdivideEdge t.1)).map Record.call ∧
    (S.flatMap (fun t => [Call.subdivideEdge t.1, Call.writeNormal t.2.1 t.2.2])).countP
        Call.isDirectWrite = S.length := by
  induction S with
  | nil => simp
  | cons t S ih =>
    obtain ⟨ih1, ih2⟩ := ih
    constructor
    · simp only [List.flatMap_cons, List.filter_append, ih1, List.map_cons]
      simp [List.filter, Call.isDirectWrite, Record.call]
    · simp only [List.flatMap_cons, List.countP_append, ih2, List.length_cons]
      simp [List.countP_cons, Call.isDirectWrite]
      omega

theorem filter_direct_map (es : List Nat) (vs : List Nat) :
    (es.map Call.relaxEdge ++ [Call.smooth vs]).filter (fun c : Call => !c.isDirectWrite)
      = (es.map Record.relaxEdge ++ [Record.smooth vs]).map Record.call ∧
    (es.map Call.relaxEdge ++ [Call.smooth vs]).countP Call.isDirectWrite = 0 := by
  induction es with
  | nil => simp [List.filter, Call.isDirectWrite, Record.call]
  | cons e es ih =>
    obtain ⟨ih1, ih2⟩ := ih
    constructor
    · simp only [List.map_cons, List.cons_append]
      rw [List.filter_cons_of_pos (by simp [Call.isDirectWrite]), ih1]
      simp [Record.call]
    · simp only [List.map_cons, List.cons_append]
      rw [List.countP_cons_of_neg _ _ (by simp [Call.isDirectWrite]), ih2]

theorem subdivideEdges_calls (ops : CarveOps M) (brush : CarveBrush) (sphere : PrimSphere)
    (domain : AffectedFaces) (s : CarveState M) :
    ∃ C : List Call, (subdivideEdges ops brush sphere domain s).1.calls = s.calls ++ C ∧
      Call.bufferData ∉ C ∧ Call.intersects ∉ C := by
  obtain ⟨S, es, vs, _, h2⟩ := subdivideEdges_spec ops brush sphere domain s
  exact ⟨_, h2, by simp, by simp⟩

theorem finalize_calls (ops : CarveOps M) (domain : AffectedFaces) (s : CarveState M) :
    ∃ C : List Call, (finalize ops domain s).1.calls = s.calls ++ C ∧
      Call.bufferData ∉ C ∧ Call.intersects ∉ C :=
  ⟨_, (finalize_spec ops domain s).2, by simp, by simp⟩

/-- C2 (amended): the bound of the subdivide step is `maxLengthSqr`, the single
precision square of the single precision product of `4.0f / 3.0f` and the
detail. On a working set that lists every edge once, the step appends
subdivide-edge records for a sublist `S` of the edges, and an edge is in `S` if
and only if its squared length, in the mesh as the loop finds it on reaching
the edge, is strictly above the bound (so not when it equals the bound). When no
edge of the working set is above the bound, the step leaves state and faces of
the domain as they are, and the whole cycle appends one relax-edge record per
edge of the working set and then one smooth record, nothing else. -/
theorem C2_subdivide_threshold (ops : CarveOps M) (brush : CarveBrush) (sphere : PrimSphere)
    (s : CarveState M) (domain thisIteration : AffectedFaces)
    (hnd : (ops.edges s.mesh thisIteration).Nodup) :
    maxLengthSqr brush
      = roundFloat (roundFloat (roundFloat (4 / 3) * brush.detail)
          * roundFloat (roundFloat (4 / 3) * brush.detail)) ∧
    (∃ S : List Nat,
      (subdivideStep ops (maxLengthSqr brush) s domain thisIteration).1.actions
        = s.actions ++ S.map Record.subdivideEdge ∧
      S.Sublist (ops.edges s.mesh thisIteration) ∧
      ∀ pre e post, ops.edges s.mesh thisIteration = pre ++ e :: post →
        (Record.subdivideEdge e ∈ S.map Record.subdivideEdge
          ↔ maxLengthSqr brush < ops.lengthSqr
              (subdivideLoop ops (maxLengthSqr brush) pre s AffectedFaces.empty).1.mesh e) ∧
        (ops.lengthSqr (subdivideLoop ops (maxLengthSqr brush) pre s AffectedFaces.empty).1.mesh e
            = maxLengthSqr brush →
          Record.subdivideEdge e ∉ S.map Record.subdivideEdge)) ∧
    ((∀ e ∈ ops.edges s.mesh thisIteration, ¬ maxLengthSqr brush < ops.lengthSqr s.mesh e) →
      (subdivideStep ops (maxLengthSqr brush) s domain thisIteration).1 = s ∧
      (∀ f, AffectedFaces.Mem f
          (subdivideStep ops (maxLengthSqr brush) s domain thisIteration).2.1
        ↔ AffectedFaces.Mem f domain)) ∧
    ((∀ e ∈ ops.edges s.mesh (thisIterationDomain ops sphere s.mesh domain domain),
        ¬ maxLengthSqr brush < ops.lengthSqr s.mesh e) →
      ∃ es vs, es = ops.edges s.mesh
          ((thisIterationDomain ops sphere s.mesh domain domain).insertAll
            AffectedFaces.empty).commit ∧
        (subdivideEdges ops brush sphere domain s).1.actions
          = s.actions ++ es.map Record.relaxEdge ++ [Record.smooth vs] ∧
        (subdivideEdges ops brush sphere domain s).1.calls
          = s.calls ++ es.map Call.relaxEdge ++ [Call.smooth vs]) := by
  have hmem : ∀ (S : List Nat) (e : Nat),
      Record.subdivideEdge e ∈ S.map Record.subdivideEdge ↔ e ∈ S := by
    intro S e
    simp [List.mem_map]
  refine ⟨rfl, ?_, ?_, ?_⟩
  · obtain ⟨S, h1, h2, h3⟩ := subdivideLoop_visit ops (maxLengthSqr brush)
      (ops.edges s.mesh thisIteration) s AffectedFaces.empty hnd
    refine ⟨S, h1, h2, ?_⟩
    intro pre e post hsplit
    have h4 := h3 pre e post hsplit
    refine ⟨?_, ?_⟩
    · rw [hmem]
      exact h4
    · intro heq
      rw [hmem, h4, heq]
      exact lt_irrefl _
  · intro hno
    have hnone := subdivideLoop_none ops (maxLengthSqr brush) (ops.edges s.mesh thisIteration) s
      AffectedFaces.empty hno
    refine ⟨?_, ?_⟩
    · simp only [subdivideStep, hnone]
    · intro f
      simp only [subdivideStep, hnone]
      rw [AffectedFaces.mem_commit, AffectedFaces.mem_insertAll_empty]
  · intro hno
    have hnone := subdivideLoop_none ops (maxLengthSqr brush)
      (ops.edges s.mesh (thisIterationDomain ops sphere s.mesh domain domain)) s
      AffectedFaces.empty hno
    refine ⟨_, ops.toVertexSet
      (relaxLoop ops (ops.edges s.mesh
        ((thisIterationDomain ops sphere s.mesh domain domain).insertAll
          AffectedFaces.empty).commit) s (domain.insertAll AffectedFaces.empty).commit).1.mesh
      ((thisIterationDomain ops sphere s.mesh domain domain).insertAll
          AffectedFaces.empty).commit, rfl, ?_, ?_⟩
    · simp only [subdivideEdges, smoothStep, relaxStep, subdivideStep, hnone]
      rw [(relaxLoop_eq ops _ _ _).1]
    · simp only [subdivideEdges, smoothStep, relaxStep, subdivideStep, hnone]
      rw [(relaxLoop_eq ops _ _ _).2]

/-- C2 at the example mesh whose edges 0, 1, 2 have the squared lengths 9, 1 and
14913081/8388608, with a brush of detail 1. -/
theorem C2_subdivide_threshold_witness :
    ∃ S : List Nat,
      (subdivideStep exLengthOps (maxLengthSqr (exBrush 1)) exLengthState AffectedFaces.empty
          ⟨[0], []⟩).1.actions = exLengthState.actions ++ S.map Record.subdivideEdge ∧
      S.Sublist (exLengthOps.edges exLengthState.mesh ⟨[0], []⟩) ∧
      ∀ pre e post, exLengthOps.edges exLengthState.mesh ⟨[0], []⟩ = pre ++ e :: post →
        (Record.subdivideEdge e ∈ S.map Record.subdivideEdge
          ↔ maxLengthSqr (exBrush 1) < exLengthOps.lengthSqr
              (subdivideLoop exLengthOps (maxLengthSqr (exBrush 1)) pre exLengthState
                AffectedFaces.empty).1.mesh e) ∧
        (exLengthOps.lengthSqr
            (subdivideLoop exLengthOps (maxLengthSqr (exBrush 1)) pre exLengthState
              AffectedFaces.empty).1.mesh e = maxLengthSqr (exBrush 1) →
          Record.subdivideEdge e ∉ S.map Record.subdivideEdge) :=
  (C2_subdivide_threshold exLengthOps (exBrush 1) ⟨Vec3.zero, 1⟩ exLengthState
    AffectedFaces.empty ⟨[0], []⟩ (by decide)).2.1

/-- C2 as stated fails: on the example mesh, with a brush of detail 1, edge 2 of
the working set has the squared length 14913081/8388608, which strictly exceeds
`(4/3 · 1)² = 16/9`, and yet the subdivide step appends a record for edge 0 only:
the bound the code compares with is the `float` 14913082/8388608. The squared
length of edge 2 is the same before and after the step. -/
theorem C2_counterexample :
    2 ∈ exLengthOps.edges exLengthState.mesh ⟨[0], []⟩ ∧
    ((4 / 3 : ℚ) * (exBrush 1).detail) ^ 2 < exLengthOps.lengthSqr exLengthState.mesh 2 ∧
    maxLengthSqr (exBrush 1) = 14913082 / 8388608 ∧
    (subdivideStep exLengthOps (maxLengthSqr (exBrush 1)) exLengthState AffectedFaces.empty
        ⟨[0], []⟩).1.actions = [Record.subdivideEdge 0] ∧
    exLengthOps.lengthSqr
        (subdivideStep exLengthOps (maxLengthSqr (exBrush 1)) exLengthState AffectedFaces.empty
          ⟨[0], []⟩).1.mesh 2 = exLengthOps.lengthSqr exLengthState.mesh 2 := by
  have hq : maxLengthSqr (exBrush 1) = 14913082 / 8388608 := maxLengthSqr_one _ _ _
  refine ⟨by decide, ?_, hq, ?_, ?_⟩
  · norm_num [exLengthOps, exBrush, exLengthState]
  · rw [hq]
    norm_num [subdivideStep, subdivideLoop, isSubdividable, exLengthOps, exLengthState,
      List.range, List.range.loop]
  · rw [hq]
    norm_num [subdivideStep, subdivideLoop, isSubdividable, exLengthOps, exLengthState,
      List.range, List.range.loop]

/-- C3 (amended): when the sphere of the brush meets no face (`intersects` leaves
the domain empty), and the collaborators do nothing on the empty domain and the
empty vertex set, `run` appends exactly one record, the smooth record for the
empty vertex set, and makes three calls: `intersects`, the run of that record,
`bufferData`; the mesh it leaves is the one handed to `bufferData` unmodified. -/
theorem C3_empty_domain (ops : CarveOps M) (brush : CarveBrush) (s : CarveState M)
    (hdom : ops.intersects s.mesh ⟨brush.position, brush.width⟩ AffectedFaces.empty
      = AffectedFaces.empty)
    (hext : ops.extendDomain s.mesh AffectedFaces.empty = AffectedFaces.empty)
    (hedges : ops.edges s.mesh AffectedFaces.empty = [])
    (hverts : ops.toVertexSet s.mesh AffectedFaces.empty = [])
    (hsmooth : ops.smooth s.mesh [] AffectedFaces.empty = (s.mesh, AffectedFaces.empty)) :
    (run ops brush s).actions = s.actions ++ [Record.smooth []] ∧
    (run ops brush s).calls
      = s.calls ++ [Call.intersects, Call.smooth [], Call.bufferData] ∧
    (run ops brush s).mesh = ops.bufferData s.mesh := by
  have hc : (AffectedFaces.empty.insertAll AffectedFaces.empty).commit = AffectedFaces.empty := rfl
  have hc2 : AffectedFaces.empty.commit = AffectedFaces.empty := rfl
  have ht : thisIterationDomain ops ⟨brush.position, brush.width⟩ s.mesh AffectedFaces.empty
      AffectedFaces.empty = AffectedFaces.empty := by
    simp only [thisIterationDomain, AffectedFaces.reset, AffectedFaces.empty, List.foldl_nil]
    exact hext
  have hf : AffectedFaces.empty.faces = [] := rfl
  have hcycle : subdivideEdges ops brush ⟨brush.position, brush.width⟩ AffectedFaces.empty
      ⟨s.mesh, s.actions, s.calls ++ [Call.intersects]⟩
      = (⟨s.mesh, s.actions ++ [Record.smooth []],
          s.calls ++ [Call.intersects] ++ [Call.smooth []]⟩, AffectedFaces.empty) := by
    simp only [subdivideEdges, ht, subdivideStep, hedges, subdivideLoop, hc, relaxStep,
      relaxLoop, hc2, smoothStep, hverts, hsmooth]
  simp only [run, hdom, hcycle, finalize, hverts, writeNormalsLoop, hf, realignLoop,
    List.append_assoc, List.singleton_append, List.cons_append, List.nil_append, and_self]

/-- C3 at the example mesh with a brush of width 0. -/
theorem C3_empty_domain_witness :
    (run journalCarveOps (exBrush 0) exState).actions = exState.actions ++ [Record.smooth []] ∧
    (run journalCarveOps (exBrush 0) exState).calls
      = exState.calls ++ [Call.intersects, Call.smooth [], Call.bufferData] ∧
    (run journalCarveOps (exBrush 0) exState).mesh = journalCarveOps.bufferData exState.mesh :=
  C3_empty_domain journalCarveOps (exBrush 0) exState (by decide) (by decide) (by decide)
    (by decide) (by decide)

/-- C3 as stated fails: on the example mesh a brush of width 0 meets no face, the
domain stays empty, the mesh stays as it was, and yet `run` appends a record, the
smooth record for the empty vertex set. -/
theorem C3_counterexample :
    journalCarveOps.intersects exState.mesh ⟨(exBrush 0).position, (exBrush 0).width⟩
        AffectedFaces.empty = AffectedFaces.empty ∧
    (run journalCarveOps (exBrush 0) exState).mesh = exState.mesh ∧
    (run journalCarveOps (exBrush 0) exState).actions = [Record.smooth []] := by
  decide

/-- C6: given that `relaxEdge` and `ActionSmooth::run` only insert into the domain
they are handed, every committed face of the outer domain is still committed
after the subdivide/relax/smooth sequence, and every face in the domain
(committed or pending) is still in it. -/
theorem C6_domain_monotone (ops : CarveOps M) (brush : CarveBrush) (sphere : PrimSphere)
    (domain : AffectedFaces) (s : CarveState M)
    (hrelax : ∀ m e d, AffectedFaces.OnlyInserts d (ops.relaxEdge m e d).2)
    (hsmooth : ∀ m vs d, AffectedFaces.OnlyInserts d (ops.smooth m vs d).2) :
    (∀ f ∈ domain.faces, f ∈ (subdivideEdges ops brush sphere domain s).2.faces) ∧
    (∀ f, AffectedFaces.Mem f domain →
      AffectedFaces.Mem f (subdivideEdges ops brush sphere domain s).2) := by
  have h : domain.Le (subdivideEdges ops brush sphere domain s).2 := by
    simp only [subdivideEdges, smoothStep, relaxStep, subdivideStep]
    refine AffectedFaces.Le.trans ?_ (AffectedFaces.le_commit _)
    refine AffectedFaces.Le.trans ?_ (AffectedFaces.le_of_onlyInserts (hsmooth _ _ _))
    refine AffectedFaces.Le.trans ?_ (AffectedFaces.le_commit _)
    refine AffectedFaces.Le.trans ?_ (relaxLoop_le ops hrelax _ _ _)
    exact AffectedFaces.Le.trans (AffectedFaces.le_insertAll _ _) (AffectedFaces.le_commit _)
  exact h

/-- C6 at the example mesh: face 0 of the domain is still in it after the
sequence. -/
theorem C6_domain_monotone_witness :
    (∀ f ∈ (⟨[0], []⟩ : AffectedFaces).faces,
      f ∈ (subdivideEdges journalCarveOps (exBrush 1) ⟨Vec3.zero, 1⟩ ⟨[0], []⟩ exState).2.faces) ∧
    (∀ f, AffectedFaces.Mem f ⟨[0], []⟩ →
      AffectedFaces.Mem f
        (subdivideEdges journalCarveOps (exBrush 1) ⟨Vec3.zero, 1⟩ ⟨[0], []⟩ exState).2) :=
  C6_domain_monotone journalCarveOps (exBrush 1) ⟨Vec3.zero, 1⟩ ⟨[0], []⟩ exState
    (fun _ _ _ => ⟨[], rfl⟩) (fun _ _ _ => ⟨[], rfl⟩)

/-- C7 (amended): the calls that one subdivide/relax/smooth cycle makes on the mesh
are the runs of the records it appends, in append order, and in addition one
direct `writeNormal` right after the run of every subdivide-edge record, for
which no record is appended. -/
theorem C7_recorded_writes (ops : CarveOps M) (brush : CarveBrush) (sphere : PrimSphere)
    (domain : AffectedFaces) (s : CarveState M) :
    ∃ (S : List (Nat × Nat × Vec3)) (A : List Record) (C : List Call),
      (subdivideEdges ops brush sphere domain s).1.actions = s.actions ++ A ∧
      (subdivideEdges ops brush sphere domain s).1.calls = s.calls ++ C ∧
      (∃ es vs : List Nat, A = S.map (fun t => Record.subdivideEdge t.1) ++
          (es.map Record.relaxEdge ++ [Record.smooth vs]) ∧
        C = S.flatMap (fun t => [Call.subdivideEdge t.1, Call.writeNormal t.2.1 t.2.2]) ++
          (es.map Call.relaxEdge ++ [Call.smooth vs])) ∧
      C.filter (fun c : Call => !c.isDirectWrite) = A.map Record.call ∧
      C.countP Call.isDirectWrite = S.length := by
  obtain ⟨S, es, vs, h1, h2⟩ := subdivideEdges_spec ops brush sphere domain s
  refine ⟨S, _, _, h1, h2, ⟨es, vs, rfl, rfl⟩, ?_, ?_⟩
  · rw [List.filter_append, List.map_append, (filter_direct_subdivide S).1,
      (filter_direct_map es vs).1]
  · rw [List.countP_append, (filter_direct_subdivide S).2, (filter_direct_map es vs).2]
    rfl

/-- C7 as stated fails: on the example mesh, with a brush of detail 1, the cycle
splits edge 0 and then writes the normal of vertex 10 directly; that write is a
call on the mesh that is the run of none of the appended records. -/
theorem C7_counterexample :
    (subdivideEdges journalCarveOps (exBrush 1) ⟨Vec3.zero, 1⟩ ⟨[0], []⟩ exState).1.actions
      = [Record.subdivideEdge 0, Record.relaxEdge 0, Record.relaxEdge 1, Record.relaxEdge 2,
         Record.smooth [0, 1, 2]] ∧
    (subdivideEdges journalCarveOps (exBrush 1) ⟨Vec3.zero, 1⟩ ⟨[0], []⟩ exState).1.calls
      = [Call.subdivideEdge 0, Call.writeNormal 10 ⟨0, 0, 1⟩, Call.relaxEdge 0,
         Call.relaxEdge 1, Call.relaxEdge 2, Call.smooth [0, 1, 2]] ∧
    Call.writeNormal 10 ⟨0, 0, 1⟩ ∉
      ([Record.subdivideEdge 0, Record.relaxEdge 0, Record.relaxEdge 1, Record.relaxEdge 2,
         Record.smooth [0, 1, 2]].map Record.call) := by
  refine ⟨?_, ?_, by decide⟩ <;>
    norm_num [subdivideEdges, subdivideStep, subdivideLoop, isSubdividable, maxLengthSqr_one,
      relaxStep, relaxLoop, smoothStep, thisIterationDomain, journalCarveOps, exBrush, exState,
      AffectedFaces.empty, AffectedFaces.insert, AffectedFaces.insertAll, AffectedFaces.commit,
      AffectedFaces.reset]

/-- C8: with the action container as the spec gives it (redo applies every record
forward in append order, undo applies every inverse in reverse append order) and
records whose undo inverts their redo, undo after redo gives back the mesh, and a
further redo gives the redone mesh again. -/
theorem C8_undo_redo (undoRecord redoRecord : Record → M → M) (s : CarveState M) (m0 : M)
    (hinv : ∀ r ∈ s.actions, ∀ m, undoRecord r (redoRecord r m) = m) :
    runUndoBeforePostProcessing undoRecord s (runRedoBeforePostProcessing redoRecord s m0) = m0 ∧
    runRedoBeforePostProcessing redoRecord s
        (runUndoBeforePostProcessing undoRecord s (runRedoBeforePostProcessing redoRecord s m0))
      = runRedoBeforePostProcessing redoRecord s m0 ∧
    (∀ (A : List Record) (r : Record) (m : M),
      unitRedo redoRecord (A ++ [r]) m = redoRecord r (unitRedo redoRecord A m) ∧
      unitUndo undoRecord (A ++ [r]) m = unitUndo undoRecord A (undoRecord r m)) := by
  have key : ∀ (A : List Record), (∀ r ∈ A, ∀ m, undoRecord r (redoRecord r m) = m) →
      ∀ m, unitUndo undoRecord A (unitRedo redoRecord A m) = m := by
    intro A
    induction A using List.reverseRecOn with
    | nil => intro _ m; rfl
    | append_singleton A r ih =>
      intro h m
      have hr := h r (by simp)
      have hA := ih (fun x hx => h x (by simp [hx]))
      simp only [unitUndo, unitRedo, List.foldl_append, List.reverse_append, List.reverse_cons,
        List.reverse_nil, List.nil_append, List.foldl_cons, List.foldl_nil, List.cons_append]
      rw [hr]
      exact hA m
  have h1 := key s.actions hinv m0
  refine ⟨h1, ?_, ?_⟩
  · simp only [runUndoBeforePostProcessing, runRedoBeforePostProcessing] at h1 ⊢
    rw [h1]
  · intro A r m
    simp [unitUndo, unitRedo, List.foldl_append]

/-- C8 at an example: records that add to and subtract from a number. -/
theorem C8_undo_redo_witness :
    runUndoBeforePostProcessing exUndoRecord
        (⟨0, [Record.subdivideEdge 0, Record.relaxEdge 1, Record.smooth [0, 1]], []⟩ :
          CarveState Int)
        (runRedoBeforePostProcessing exRedoRecord
          ⟨0, [Record.subdivideEdge 0, Record.relaxEdge 1, Record.smooth [0, 1]], []⟩ 5) = 5 :=
  (C8_undo_redo exUndoRecord exRedoRecord
    ⟨0, [Record.subdivideEdge 0, Record.relaxEdge 1, Record.smooth [0, 1]], []⟩ 5
    (by
      intro r _ m
      cases r <;> simp [exUndoRecord, exRedoRecord])).1

/-- C9: the calls `run` makes on the mesh are, in order, `intersects`, the calls of
`subdivideEdges`, the calls of `finalize`, and `bufferData`; `bufferData` is the
last call, is made exactly once, whatever the domain, and gets the mesh that
`finalize` leaves. -/
theorem C9_bufferData_once (ops : CarveOps M) (brush : CarveBrush) (s : CarveState M) :
    ∃ C1 C2 : List Call,
      (subdivideEdges ops brush ⟨brush.position, brush.width⟩
          (ops.intersects s.mesh ⟨brush.position, brush.width⟩ AffectedFaces.empty)
          ⟨s.mesh, s.actions, s.calls ++ [Call.intersects]⟩).1.calls
        = s.calls ++ [Call.intersects] ++ C1 ∧
      (finalize ops
          (subdivideEdges ops brush ⟨brush.position, brush.width⟩
            (ops.intersects s.mesh ⟨brush.position, brush.width⟩ AffectedFaces.empty)
            ⟨s.mesh, s.actions, s.calls ++ [Call.intersects]⟩).2
          (subdivideEdges ops brush ⟨brush.position, brush.width⟩
            (ops.intersects s.mesh ⟨brush.position, brush.width⟩ AffectedFaces.empty)
            ⟨s.mesh, s.actions, s.calls ++ [Call.intersects]⟩).1).1.calls
        = s.calls ++ [Call.intersects] ++ C1 ++ C2 ∧
      (run ops brush s).calls = s.calls ++ [Call.intersects] ++ C1 ++ C2 ++ [Call.bufferData] ∧
      Call.bufferData ∉ C1 ++ C2 ∧ Call.intersects ∉ C1 ++ C2 ∧
      ([Call.intersects] ++ C1 ++ C2 ++ [Call.bufferData]).count Call.bufferData = 1 ∧
      (run ops brush s).calls.getLast? = some Call.bufferData ∧
      (run ops brush s).mesh = ops.bufferData
        (finalize ops
          (subdivideEdges ops brush ⟨brush.position, brush.width⟩
            (ops.intersects s.mesh ⟨brush.position, brush.width⟩ AffectedFaces.empty)
            ⟨s.mesh, s.actions, s.calls ++ [Call.intersects]⟩).2
          (subdivideEdges ops brush ⟨brush.position, brush.width⟩
            (ops.intersects s.mesh ⟨brush.position, brush.width⟩ AffectedFaces.empty)
            ⟨s.mesh, s.actions, s.calls ++ [Call.intersects]⟩).1).1.mesh := by
  obtain ⟨C1, h1, hb1, hi1⟩ := subdivideEdges_calls ops brush ⟨brush.position, brush.width⟩
    (ops.intersects s.mesh ⟨brush.position, brush.width⟩ AffectedFaces.empty)
    ⟨s.mesh, s.actions, s.calls ++ [Call.intersects]⟩
  obtain ⟨C2, h2, hb2, hi2⟩ := finalize_calls ops
    (subdivideEdges ops brush ⟨brush.position, brush.width⟩
      (ops.intersects s.mesh ⟨brush.position, brush.width⟩ AffectedFaces.empty)
      ⟨s.mesh, s.actions, s.calls ++ [Call.intersects]⟩).2
    (subdivideEdges ops brush ⟨brush.position, brush.width⟩
      (ops.intersects s.mesh ⟨brush.position, brush.width⟩ AffectedFaces.empty)
      ⟨s.mesh, s.actions, s.calls ++ [Call.intersects]⟩).1
  have hrun : (run ops brush s).calls
      = s.calls ++ [Call.intersects] ++ C1 ++ C2 ++ [Call.bufferData] := by
    simp only [run]
    rw [h2, h1]
  have hn : Call.bufferData ∉ C1 ++ C2 := by
    simp [hb1, hb2]
  refine ⟨C1, C2, h1, by rw [h2, h1], hrun, hn, by simp [hi1, hi2], ?_, ?_, rfl⟩
  · rw [List.append_assoc [Call.intersects], List.count_append, List.count_append,
      List.count_eq_zero_of_not_mem hn]
    decide
  · rw [hrun, List.getLast?_append]
    rfl

/-- C12: the records `run` appends are, in append order, one subdivide-edge record
per edge of a sublist `S` of the working set, one relax-edge record per edge of
the working set as the relax step finds it, one smooth record, and one
write-normal record per vertex of the vertex set of the domain as `finalize`
finds it; no move-vertex record is among them. An edge is in `S` exactly when
it is over-long on being reached: its squared length in the mesh of that moment
is above `maxLengthSqr`. The letters `sphere`, `domain`, `s1`, `T` name the
sphere of the brush, the domain after `intersects`, the state after
`intersects` and the working set, which lists every edge once. -/
theorem C12_record_order (ops : CarveOps M) (brush : CarveBrush) (s s1 : CarveState M)
    (sphere : PrimSphere) (domain T : AffectedFaces)
    (hsphere : sphere = ⟨brush.position, brush.width⟩)
    (hdomain : domain = ops.intersects s.mesh sphere AffectedFaces.empty)
    (hs1 : s1 = ⟨s.mesh, s.actions, s.calls ++ [Call.intersects]⟩)
    (hT : T = thisIterationDomain ops sphere s.mesh domain domain)
    (hnd : (ops.edges s.mesh T).Nodup) :
    ∃ (A : List Record) (S vs : List Nat),
      (run ops brush s).actions = s.actions ++ A ∧
      A = S.map Record.subdivideEdge
          ++ (ops.edges (subdivideStep ops (maxLengthSqr brush) s1 domain T).1.mesh
              (subdivideStep ops (maxLengthSqr brush) s1 domain T).2.2).map Record.relaxEdge
          ++ [Record.smooth vs]
          ++ (ops.toVertexSet (subdivideEdges ops brush sphere domain s1).1.mesh
              (subdivideEdges ops brush sphere domain s1).2).map
              Record.writeInterpolatedNormal ∧
      S.Sublist (ops.edges s.mesh T) ∧
      (∀ pre e post, ops.edges s.mesh T = pre ++ e :: post →
        (e ∈ S ↔ maxLengthSqr brush < ops.lengthSqr
          (subdivideLoop ops (maxLengthSqr brush) pre s1 AffectedFaces.empty).1.mesh e)) ∧
      ∀ v pos, Record.move v pos ∉ A := by
  subst hsphere hdomain hs1 hT
  obtain ⟨S, h1, h2, h3⟩ := subdivideLoop_visit ops (maxLengthSqr brush) _
    (⟨s.mesh, s.actions, s.calls ++ [Call.intersects]⟩ : CarveState M) AffectedFaces.empty hnd
  refine ⟨_, S, ops.toVertexSet
      (relaxStep ops
        (subdivideStep ops (maxLengthSqr brush)
          ⟨s.mesh, s.actions, s.calls ++ [Call.intersects]⟩
          (ops.intersects s.mesh ⟨brush.position, brush.width⟩ AffectedFaces.empty)
          (thisIterationDomain ops ⟨brush.position, brush.width⟩ s.mesh
            (ops.intersects s.mesh ⟨brush.position, brush.width⟩ AffectedFaces.empty)
            (ops.intersects s.mesh ⟨brush.position, brush.width⟩ AffectedFaces.empty))).1
        (subdivideStep ops (maxLengthSqr brush)
          ⟨s.mesh, s.actions, s.calls ++ [Call.intersects]⟩
          (ops.intersects s.mesh ⟨brush.position, brush.width⟩ AffectedFaces.empty)
          (thisIterationDomain ops ⟨brush.position, brush.width⟩ s.mesh
            (ops.intersects s.mesh ⟨brush.position, brush.width⟩ AffectedFaces.empty)
            (ops.intersects s.mesh ⟨brush.position, brush.width⟩ AffectedFaces.empty))).2.1
        (subdivideStep ops (maxLengthSqr brush)
          ⟨s.mesh, s.actions, s.calls ++ [Call.intersects]⟩
          (ops.intersects s.mesh ⟨brush.position, brush.width⟩ AffectedFaces.empty)
          (thisIterationDomain ops ⟨brush.position, brush.width⟩ s.mesh
            (ops.intersects s.mesh ⟨brush.position, brush.width⟩ AffectedFaces.empty)
            (ops.intersects s.mesh ⟨brush.position, brush.width⟩ AffectedFaces.empty))).2.2).1.mesh
      (subdivideStep ops (maxLengthSqr brush)
        ⟨s.mesh, s.actions, s.calls ++ [Call.intersects]⟩
        (ops.intersects s.mesh ⟨brush.position, brush.width⟩ AffectedFaces.empty)
        (thisIterationDomain ops ⟨brush.position, brush.width⟩ s.mesh
          (ops.intersects s.mesh ⟨brush.position, brush.width⟩ AffectedFaces.empty)
          (ops.intersects s.mesh ⟨brush.position, brush.width⟩ AffectedFaces.empty))).2.2,
    ?_, rfl, h2, h3, ?_⟩
  · simp only [run]
    rw [(finalize_spec ops _ _).1]
    simp only [subdivideEdges, smoothStep, relaxStep, subdivideStep]
    rw [(relaxLoop_eq ops _ _ _).1, h1]
    simp only [List.append_assoc]
  · intro v pos
    simp

/-- C12 at the example mesh whose edges 0, 1, 2 have the squared lengths 9, 1 and
14913081/8388608, with a brush of width 1 and detail 1. -/
theorem C12_record_order_witness :
    ∃ (A : List Record) (S vs : List Nat),
      (run exLengthOps (exBrush 1) exLengthState).actions = exLengthState.actions ++ A ∧
      A = S.map Record.subdivideEdge
          ++ (exLengthOps.edges
              (subdivideStep exLengthOps (maxLengthSqr (exBrush 1))
                ⟨[9, 1, 14913081 / 8388608], [], [Call.intersects]⟩ ⟨[0], []⟩ ⟨[0], []⟩).1.mesh
              (subdivideStep exLengthOps (maxLengthSqr (exBrush 1))
                ⟨[9, 1, 14913081 / 8388608], [], [Call.intersects]⟩ ⟨[0], []⟩ ⟨[0], []⟩).2.2).map
              Record.relaxEdge
          ++ [Record.smooth vs]
          ++ (exLengthOps.toVertexSet
              (subdivideEdges exLengthOps (exBrush 1) ⟨Vec3.zero, 1⟩ ⟨[0], []⟩
                ⟨[9, 1, 14913081 / 8388608], [], [Call.intersects]⟩).1.mesh
              (subdivideEdges exLengthOps (exBrush 1) ⟨Vec3.zero, 1⟩ ⟨[0], []⟩
                ⟨[9, 1, 14913081 / 8388608], [], [Call.intersects]⟩).2).map
              Record.writeInterpolatedNormal ∧
      S.Sublist (exLengthOps.edges exLengthState.mesh ⟨[0], []⟩) ∧
      (∀ pre e post, exLengthOps.edges exLengthState.mesh ⟨[0], []⟩ = pre ++ e :: post →
        (e ∈ S ↔ maxLengthSqr (exBrush 1) < exLengthOps.lengthSqr
          (subdivideLoop exLengthOps (maxLengthSqr (exBrush 1)) pre
            ⟨[9, 1, 14913081 / 8388608], [], [Call.intersects]⟩
            AffectedFaces.empty).1.mesh e)) ∧
      ∀ v pos, Record.move v pos ∉ A :=
  C12_record_order exLengthOps (exBrush 1) exLengthState
    ⟨[9, 1, 14913081 / 8388608], [], [Call.intersects]⟩
    ⟨Vec3.zero, 1⟩ ⟨[0], []⟩ ⟨[0], []⟩ rfl (by decide) rfl (by decide) (by decide)

theorem carveLoop_eq (ops : CarveOps M) (distance : Vec3 → Vec3 → ℚ) (brush : CarveBrush)
    (n : Vec3)
    (hmove : ∀ m v p v1, v1 ≠ v → ops.vector (ops.move m v p) v1 = ops.vector m v1)
    (vs : List Nat) (s : CarveState M) (hnd : vs.Nodup) :
    (carveLoop ops distance brush n vs s).actions
      = s.actions ++ vs.map
          (fun v => Record.move v (carveVertex distance brush n (ops.vector s.mesh v))) := by
  induction vs generalizing s with
  | nil => simp [carveLoop]
  | cons v vs ih =>
    obtain ⟨hne, hnd1⟩ := List.nodup_cons.1 hnd
    simp only [carveLoop]
    rw [ih _ hnd1]
    have hc : vs.map (fun x => Record.move x (carveVertex distance brush n
          (ops.vector (ops.move s.mesh v (carveVertex distance brush n (ops.vector s.mesh v))) x)))
        = vs.map (fun x => Record.move x (carveVertex distance brush n (ops.vector s.mesh x))) := by
      apply List.map_congr_left
      intro x hx
      have hxv : x ≠ v := fun h => hne (h ▸ hx)
      rw [hmove _ _ _ _ hxv]
    simp only [hc]
    simp

/-- C14: `carveFaces` appends one move-vertex record per vertex of the vertex set
of the domain, in its order; the new position of a vertex at `pos` is
`pos + n · falloff (distance (pos, brush centre))`, where `n` is the average of
the interpolated normals of these vertices in the mesh as it is before the first
move; when the falloff is 0 the new position is `pos`. Moving one vertex leaves
the position of the other vertices alone, and the vertex set lists every vertex
once. -/
theorem C14_carveFaces (ops : CarveOps M) (distance : Vec3 → Vec3 → ℚ) (brush : CarveBrush)
    (domain : AffectedFaces) (s : CarveState M)
    (hmove : ∀ m v p v1, v1 ≠ v → ops.vector (ops.move m v p) v1 = ops.vector m v1)
    (hnd : (ops.toVertexSet s.mesh domain).Nodup) :
    (carveFaces ops distance brush domain s).actions
      = s.actions ++ (ops.toVertexSet s.mesh domain).map
          (fun v => Record.move v
            (Vec3.add (ops.vector s.mesh v)
              (Vec3.scale (averageNormal ops s.mesh (ops.toVertexSet s.mesh domain))
                (brush.y (distance (ops.vector s.mesh v) brush.position))))) ∧
    averageNormal ops s.mesh (ops.toVertexSet s.mesh domain)
      = Vec3.divScalar
          (((ops.toVertexSet s.mesh domain).map (ops.interpolatedNormal s.mesh)).foldl
            Vec3.add Vec3.zero)
          (ops.toVertexSet s.mesh domain).length ∧
    (∀ v ∈ ops.toVertexSet s.mesh domain,
      brush.y (distance (ops.vector s.mesh v) brush.position) = 0 →
      Vec3.add (ops.vector s.mesh v)
          (Vec3.scale (averageNormal ops s.mesh (ops.toVertexSet s.mesh domain))
            (brush.y (distance (ops.vector s.mesh v) brush.position)))
        = ops.vector s.mesh v) := by
  refine ⟨?_, ?_, ?_⟩
  · simp only [carveFaces]
    rw [carveLoop_eq ops distance brush _ hmove _ _ hnd]
    rfl
  · simp only [averageNormal, List.foldl_map]
  · intro v _ h0
    rw [h0]
    simp [Vec3.add, Vec3.scale]

/-- C14 at the example mesh, whose face 0 has the vertices 0, 1, 2. -/
theorem C14_carveFaces_witness :
    (carveFaces journalCarveOps exDistance exFalloffBrush ⟨[0], []⟩ exState).actions
      = exState.actions ++ (journalCarveOps.toVertexSet exState.mesh ⟨[0], []⟩).map
          (fun v => Record.move v
            (Vec3.add (journalCarveOps.vector exState.mesh v)
              (Vec3.scale
                (averageNormal journalCarveOps exState.mesh
                  (journalCarveOps.toVertexSet exState.mesh ⟨[0], []⟩))
                (exFalloffBrush.y
                  (exDistance (journalCarveOps.vector exState.mesh v)
                    exFalloffBrush.position))))) :=
  (C14_carveFaces journalCarveOps exDistance exFalloffBrush ⟨[0], []⟩ exState
    (fun _ _ _ _ _ => rfl) (by decide)).1

end ActionCarve

end Dilay
